import Mathlib

/-!
# s3hero: the profile manager of `internal/config/config.go`

A shallow embedding of the configuration manager: the `Profile` and `Config`
data model, the Go map holding the profiles, and the operations `NewManager`,
`Load`, `Save`, `AddProfile`, `GetProfile`, `DeleteProfile`, `ListProfiles`,
`SetDefault`, `GetDefault`.

Modelling decisions.

* A value of type `map[string]*Profile` is either the nil map or an allocated
  map; an allocated map is an association list with pairwise distinct keys
  (`AList`). Reading, `len`, `delete` and `range` treat the nil map as empty;
  assigning to an entry of the nil map panics.
* The map stores `*Profile` pointers. The operations are embedded twice. In the
  first embedding (`Manager`) the map stores the record the pointer points to
  at the time of the call; it tells what each call does to the Config and what
  it returns. In the second (`Memory`) the map stores the pointer and the
  caller may assign to its Profile objects between the calls; it serves the
  claims about the profiles stored, which such an assignment can change. The
  Config the second shows after a call is the Config the first computes
  (`Memory.view_step_add`, `Memory.view_step_delete`,
  `Memory.view_step_setDefault`).
* A Go string is a string of bytes; it is embedded as the Lean string with one
  character per byte.
* The order in which `range` visits the keys of a map is not fixed by Go. It is
  an explicit argument `seed` of each operation that ranges over the map;
  `rangeOrder` decodes a seed into a permutation of the keys and every
  permutation is the decoding of some seed (`rangeOrder_complete`).
* `json.MarshalIndent` cannot fail on a `Config`, so the result of `Save` is
  the result of `os.WriteFile`. That result belongs to the environment and is
  an explicit argument `write` of each operation that saves. The manager
  records every Config handed to `os.WriteFile` in `writes`.
* The text of the configuration file is identified with the JSON value it
  denotes (`Json`); a text that denotes none is `File.malformed`. What
  `encoding/json` does is embedded on these values, as far as the types
  `Config` and `Profile` with their struct tags exercise it: `marshalConfig`
  for `json.MarshalIndent`, `Unmarshal` for `json.Unmarshal` into the Config
  the manager holds. `json.MarshalIndent` writes U+FFFD for every byte of a
  string that starts no valid UTF-8 encoding (`toValidUTF8`); the strings of a
  `Json` value are the strings the decoder yields. The folding of names by
  which `encoding/json`
  matches a member key with a struct field when no field has exactly that
  name is an argument `fold` of `Unmarshal`; nothing is assumed of it.
* A member `null` of the "profiles" object stores a nil `*Profile`, which the
  embedding cannot hold; `Unmarshal` answers `Decoded.nilProfile` on such a
  file and nothing is claimed about it.
-/

namespace S3Hero

/-! ## Data model -/

/-- The struct `Profile`; `ProviderType` is a Go string type. A Go string is a
string of bytes, which need not be valid UTF-8. It is embedded as the Lean
string that has one character for every byte, the character of that number:
"work" is the four bytes of the Go literal, and the byte 0xFF is the character
of number 255 (see `badName`). A character above 255 stands for no byte and
counts as invalid where bytes are inspected (`utf8Size`). -/
structure Profile where
  Name : String
  Provider : String
  AccessKeyID : String
  SecretAccessKey : String
  Region : String
  Endpoint : String
  AccountID : String
  deriving DecidableEq, Repr

/-- An allocated Go map from profile names to profiles. -/
abbrev Entries := AList (fun _ : String => Profile)

/-- A value of type `map[string]*Profile`: `none` is the nil map. -/
abbrev ProfileMap := Option Entries

/-- The struct `Config`. -/
structure Config where
  DefaultProfile : String
  Profiles : ProfileMap
  deriving DecidableEq

/-- The error values the manager returns. -/
inductive Error where
  /-- An error built by `fmt.Errorf` with the given message. -/
  | errorf (msg : String)
  /-- An error returned by `os.WriteFile`. -/
  | os (msg : String)
  deriving DecidableEq, Repr

/-- How a call of a function with result type `error` ends. -/
inductive Result where
  /-- The call returned nil. -/
  | ok
  /-- The call returned a non-nil error. -/
  | err (e : Error)
  /-- The call panicked with "assignment to entry in nil map". -/
  | panic
  deriving DecidableEq, Repr

/-- The struct `Manager` (its constant `configPath` left out), together with
the record of the Configs that were handed to `os.WriteFile`, newest first. -/
structure Manager where
  config : Config
  writes : List Config

/-! ## The Go map -/

/-- The expression `m[k]` in its two-result form: the entry, if there is one. -/
def ProfileMap.lookup (m : ProfileMap) (k : String) : Option Profile :=
  match m with
  | none => none
  | some s => s.lookup k

/-- The keys of a map; the nil map has none. -/
def ProfileMap.keys (m : ProfileMap) : List String :=
  match m with
  | none => []
  | some s => s.keys

/-- The builtin `len(m)`. -/
def ProfileMap.len (m : ProfileMap) : Nat :=
  match m with
  | none => 0
  | some s => s.entries.length

/-- The builtin `delete(m, k)`; a no-op on the nil map and on an absent key. -/
def ProfileMap.delete (m : ProfileMap) (k : String) : ProfileMap :=
  match m with
  | none => none
  | some s => some (s.erase k)

/-- The assignment `m[k] = v`; `none` when it panics, which it does on the nil
map. The Go map holds the pointer v; this map holds the record v points to at
the time of the assignment. The two agree on the Config right after the call
(`Memory.view_step_add`); they differ once the caller writes to that record,
which `Memory.step` embeds. -/
def ProfileMap.store (m : ProfileMap) (k : String) (v : Profile) : Option ProfileMap :=
  match m with
  | none => none
  | some s => some (some (s.insert k v))

/-- The order in which a `range` loop visits the given keys, decoded from a
seed: the first key is put at position `seed % n` among the others, which are
ordered by `seed / n`, where `n` is the number of keys. -/
def rangeOrder : List String → Nat → List String
  | [], _ => []
  | k :: ks, seed =>
    (rangeOrder ks (seed / (ks.length + 1))).insertIdx (seed % (ks.length + 1)) k

/-- The entries of a map; the nil map has none. -/
def ProfileMap.entries (m : ProfileMap) : List (Sigma fun _ : String => Profile) :=
  match m with
  | none => []
  | some s => s.entries

/-! ## Operations of the manager -/

/-- The message of the not-found error. -/
def notFound (name : String) : Error :=
  .errorf ("profile '" ++ name ++ "' not found")

/-- The state `NewManager` builds before it tries to load a file, which is also
the state it returns when there is no file: an allocated, empty map and no
default. -/
def fresh : Manager :=
  { config := { DefaultProfile := "", Profiles := some ∅ }, writes := [] }

/-- Save: hands the Config to `os.WriteFile` and returns its result. -/
def Save (m : Manager) (write : Option String) : Manager × Result :=
  ({ m with writes := m.config :: m.writes },
   match write with
   | none => .ok
   | some e => .err (.os e))

/-- AddProfile. -/
def AddProfile (m : Manager) (profile : Profile) (write : Option String) : Manager × Result :=
  if profile.Name = "" then
    (m, .err (.errorf "profile name is required"))
  else
    match m.config.Profiles.store profile.Name profile with
    | none => (m, .panic)
    | some profiles =>
      let config : Config := { m.config with Profiles := profiles }
      let config : Config :=
        if profiles.len = 1 then { config with DefaultProfile := profile.Name } else config
      Save { m with config := config } write

/-- GetProfile. -/
def GetProfile (m : Manager) (name : String) : Except Error Profile :=
  let name := if name = "" then m.config.DefaultProfile else name
  if name = "" then
    .error (.errorf "no profile specified and no default profile set")
  else
    match m.config.Profiles.lookup name with
    | none => .error (notFound name)
    | some profile => .ok profile

/-- DeleteProfile; `seed` fixes the order of its `range` loop, which stops
after the first key. -/
def DeleteProfile (m : Manager) (name : String) (seed : Nat) (write : Option String) :
    Manager × Result :=
  match m.config.Profiles.lookup name with
  | none => (m, .err (notFound name))
  | some _ =>
    let profiles := m.config.Profiles.delete name
    let config : Config := { m.config with Profiles := profiles }
    let config : Config :=
      if config.DefaultProfile = name then
        match rangeOrder profiles.keys seed with
        | [] => { config with DefaultProfile := "" }
        | n :: _ => { config with DefaultProfile := n }
      else config
    Save { m with config := config } write

/-- ListProfiles; `seed` fixes the order of its `range` loop. -/
def ListProfiles (m : Manager) (seed : Nat) : List String :=
  (rangeOrder m.config.Profiles.keys seed).foldl (fun names name => names ++ [name]) []

/-- SetDefault. -/
def SetDefault (m : Manager) (name : String) (write : Option String) : Manager × Result :=
  match m.config.Profiles.lookup name with
  | none => (m, .err (notFound name))
  | some _ =>
    Save { m with config := { m.config with DefaultProfile := name } } write

/-- GetDefault. -/
def GetDefault (m : Manager) : String :=
  m.config.DefaultProfile

/-- What Save returns: nil, or the error of the write. -/
def saveResult (write : Option String) : Result :=
  match write with
  | none => .ok
  | some e => .err (.os e)

/-! ## The configuration file -/

/-- A JSON value. -/
inductive Json where
  | null
  | bool (b : Bool)
  | number (literal : String)
  | string (s : String)
  | array (items : List Json)
  | object (members : List (String × Json))

/-- The configuration file as `os.ReadFile` finds it. -/
inductive File where
  /-- There is no file: `os.ReadFile` fails with an error that satisfies
  `os.IsNotExist`. -/
  | absent
  /-- The file cannot be read: `os.ReadFile` fails with another error. -/
  | unreadable (msg : String)
  /-- The content is not well-formed JSON. -/
  | malformed
  /-- The content is well-formed JSON and denotes this value. -/
  | json (j : Json)

/-- The errors of `Load`. -/
inductive LoadError where
  /-- The error of `os.ReadFile` for a file that does not exist. -/
  | notExist
  /-- Another error of `os.ReadFile`. -/
  | read (msg : String)
  /-- A `json.SyntaxError`; the Config is untouched. -/
  | malformed
  /-- A `json.UnmarshalTypeError`: a JSON value did not fit the Go type it was
  meant for. Decoding went on past it, and the Config it left is not told. -/
  | unmarshalType
  deriving DecidableEq, Repr

/-- The errors of `NewManager`. -/
inductive NewManagerError where
  /-- The wrapped error "failed to get config directory: ...". -/
  | configDir (msg : String)
  /-- The wrapped error "failed to load config: ...". -/
  | load (e : LoadError)
  deriving DecidableEq, Repr

/-- How decoding into a Go value ends. -/
inductive Decoded (α : Type) where
  /-- Without error, leaving this value. -/
  | done (a : α)
  /-- With a `json.UnmarshalTypeError`. -/
  | typeError
  /-- The file stores a nil `*Profile`: outside the embedding. -/
  | nilProfile

/-- How `Load` and `NewManager` end. -/
inductive Outcome (ε : Type) where
  /-- Returned nil, leaving this manager. -/
  | ok (m : Manager)
  /-- Returned an error. -/
  | failed (e : ε)
  /-- The file stores a nil `*Profile`: outside the embedding. -/
  | nilProfile

/-- The fields of `Profile` with a JSON name, by their struct tags, each with
its getter, its setter and whether the tag says `omitempty`. -/
def profileFields : List (String × (Profile → String) × (Profile → String → Profile) × Bool) :=
  [("name", (·.Name), (fun p s => { p with Name := s }), false),
   ("provider", (·.Provider), (fun p s => { p with Provider := s }), false),
   ("access_key_id", (·.AccessKeyID), (fun p s => { p with AccessKeyID := s }), false),
   ("secret_access_key", (·.SecretAccessKey),
      (fun p s => { p with SecretAccessKey := s }), false),
   ("region", (·.Region), (fun p s => { p with Region := s }), false),
   ("endpoint", (·.Endpoint), (fun p s => { p with Endpoint := s }), true),
   ("account_id", (·.AccountID), (fun p s => { p with AccountID := s }), true)]

/-- The two fields of `Config`. -/
inductive ConfigField where
  | defaultProfile
  | profiles

/-- The fields of `Config` by their struct tags. -/
def configFields : List (String × ConfigField) :=
  [("default_profile", .defaultProfile), ("profiles", .profiles)]

/-- The struct field a member key selects: the field of exactly that name,
else the first field whose folded name is the folded key, else none (the
member is then skipped). -/
def findField {α : Type} (fold : String → String) (fields : List (String × α))
    (key : String) : Option α :=
  match fields.find? (fun f => f.1 = key) with
  | some f => some f.2
  | none =>
    match fields.find? (fun f => fold f.1 = fold key) with
    | some f => some f.2
    | none => none

/-- Decoding the members of a JSON object one after the other, each into the
value the one before left; the first error ends it. -/
def decodeMembers {α : Type} (step : α → String × Json → Decoded α) :
    α → List (String × Json) → Decoded α
  | a, [] => .done a
  | a, member :: rest =>
    match step a member with
    | .done b => decodeMembers step b rest
    | .typeError => .typeError
    | .nilProfile => .nilProfile

/-- Decoding one member of a JSON object into a `Profile`: a string sets the
field, null leaves it, any other value is a type error. -/
def decodeProfileMember (fold : String → String) (p : Profile) (member : String × Json) :
    Decoded Profile :=
  match findField fold profileFields member.1 with
  | none => .done p
  | some field =>
    match member.2 with
    | .string s => .done (field.2.1 p s)
    | .null => .done p
    | _ => .typeError

/-- The zero value of `Profile`. -/
def zeroProfile : Profile :=
  { Name := "", Provider := "", AccessKeyID := "", SecretAccessKey := "", Region := "",
    Endpoint := "", AccountID := "" }

/-- Decoding one member of the "profiles" object into the map: an object is
decoded into a new `Profile`, which is stored under the member key. -/
def decodeEntry (fold : String → String) (s : Entries) (member : String × Json) :
    Decoded Entries :=
  match member.2 with
  | .object fields =>
    match decodeMembers (decodeProfileMember fold) zeroProfile fields with
    | .done p => .done (s.insert member.1 p)
    | .typeError => .typeError
    | .nilProfile => .nilProfile
  | .null => .nilProfile
  | _ => .typeError

/-- Decoding a JSON value into the field `Profiles`: null sets the nil map; an
object is decoded into the map that is there, which is allocated first if it
is nil, and the entries that are there stay. -/
def decodeProfiles (fold : String → String) (m : ProfileMap) (v : Json) : Decoded ProfileMap :=
  match v with
  | .null => .done none
  | .object members =>
    match decodeMembers (decodeEntry fold) (m.getD ∅) members with
    | .done s => .done (some s)
    | .typeError => .typeError
    | .nilProfile => .nilProfile
  | _ => .typeError

/-- Decoding one member of the top-level object into the `Config`. -/
def decodeConfigMember (fold : String → String) (c : Config) (member : String × Json) :
    Decoded Config :=
  match findField fold configFields member.1 with
  | none => .done c
  | some .defaultProfile =>
    match member.2 with
    | .string s => .done { c with DefaultProfile := s }
    | .null => .done c
    | _ => .typeError
  | some .profiles =>
    match decodeProfiles fold c.Profiles member.2 with
    | .done profiles => .done { c with Profiles := profiles }
    | .typeError => .typeError
    | .nilProfile => .nilProfile

/-- The call `json.Unmarshal(data, m.config)` on well-formed data: an object is
decoded member by member into the Config that is there, null leaves it, any
other value is a type error. -/
def Unmarshal (fold : String → String) (j : Json) (c : Config) : Decoded Config :=
  match j with
  | .object members => decodeMembers (decodeConfigMember fold) c members
  | .null => .done c
  | _ => .typeError

/-- Load. -/
def Load (fold : String → String) (m : Manager) (file : File) : Outcome LoadError :=
  match file with
  | .absent => .failed .notExist
  | .unreadable msg => .failed (.read msg)
  | .malformed => .failed .malformed
  | .json j =>
    match Unmarshal fold j m.config with
    | .done c => .ok { m with config := c }
    | .typeError => .failed .unmarshalType
    | .nilProfile => .nilProfile

/-- What `NewManager` meets: the error of `getConfigDir`, if it fails, and the
configuration file. -/
structure Env where
  configDir : Option String
  file : File

/-- NewManager. -/
def NewManager (fold : String → String) (env : Env) : Outcome NewManagerError :=
  match env.configDir with
  | some e => .failed (.configDir e)
  | none =>
    match Load fold fresh env.file with
    | .ok m => .ok m
    | .failed .notExist => .ok fresh
    | .failed e => .failed (.load e)
    | .nilProfile => .nilProfile

/-- The zero value of `Config`: no default and the nil map. -/
def zeroConfig : Config :=
  { DefaultProfile := "", Profiles := none }

/-- The member of the top-level object gives a default: its key selects the
field `DefaultProfile` and its value is a string. -/
def givesDefault (fold : String → String) (member : String × Json) : Bool :=
  match findField fold configFields member.1, member.2 with
  | some .defaultProfile, .string _ => true
  | _, _ => false

/-- The member of the top-level object makes the map nil: its key selects the
field `Profiles` and its value is null. -/
def nullsProfiles (fold : String → String) (member : String × Json) : Bool :=
  match findField fold configFields member.1, member.2 with
  | some .profiles, .null => true
  | _, _ => false

/-- The file gives a default: it is an object with a member that does. -/
def Json.givesDefault (fold : String → String) : Json → Bool
  | .object members => members.any (S3Hero.givesDefault fold)
  | _ => false

/-- The file makes the map nil: it is an object with a member that does. -/
def Json.nullsProfiles (fold : String → String) : Json → Bool
  | .object members => members.any (S3Hero.nullsProfiles fold)
  | _ => false

/-- The Config `now` is the Config `file` laid over the Config `old`: the
default is that of `file` if one was given and that of `old` if not; a name
that `file` has finds the profile of `file`, another name finds what it finds
in `old` unless the map was made nil. -/
structure Overlay (old now file : Config) (given nulled : Bool) : Prop where
  default : now.DefaultProfile = if given then file.DefaultProfile else old.DefaultProfile
  noDefault : given = false → file.DefaultProfile = ""
  lookup : ∀ k, now.Profiles.lookup k =
    match file.Profiles.lookup k with
    | some p => some p
    | none => if nulled then none else old.Profiles.lookup k

/-- The size of the UTF-8 encoding that the bytes start with, as
`utf8.DecodeRuneInString` tells it: 1 to 4, and 0 when the bytes start with no
valid encoding (a stray continuation byte, a truncated, overlong or surrogate
encoding, a byte that can start none). -/
def utf8Size : List Nat → Nat
  | [] => 0
  | b0 :: rest =>
    if b0 < 0x80 then 1
    else if 0xC2 ≤ b0 ∧ b0 ≤ 0xDF then
      match rest with
      | b1 :: _ => if 0x80 ≤ b1 ∧ b1 ≤ 0xBF then 2 else 0
      | _ => 0
    else if 0xE0 ≤ b0 ∧ b0 ≤ 0xEF then
      match rest with
      | b1 :: b2 :: _ =>
        if (if b0 = 0xE0 then 0xA0 else 0x80) ≤ b1 ∧ b1 ≤ (if b0 = 0xED then 0x9F else 0xBF) ∧
            0x80 ≤ b2 ∧ b2 ≤ 0xBF then 3
        else 0
      | _ => 0
    else if 0xF0 ≤ b0 ∧ b0 ≤ 0xF4 then
      match rest with
      | b1 :: b2 :: b3 :: _ =>
        if (if b0 = 0xF0 then 0x90 else 0x80) ≤ b1 ∧ b1 ≤ (if b0 = 0xF4 then 0x8F else 0xBF) ∧
            0x80 ≤ b2 ∧ b2 ≤ 0xBF ∧ 0x80 ≤ b3 ∧ b3 ≤ 0xBF then 4
        else 0
      | _ => 0
    else 0

/-- The bytes `encoding/json` writes for the bytes of a Go string, escapes
undone: a byte that starts no valid UTF-8 encoding is replaced by the three
bytes of U+FFFD, every other byte is kept. `skip` counts the bytes still to
keep of an encoding found valid. -/
def coerceUTF8 (skip : Nat) : List Char → List Char
  | [] => []
  | c :: cs =>
    match skip with
    | n + 1 => c :: coerceUTF8 n cs
    | 0 =>
      match utf8Size ((c :: cs).map Char.toNat) with
      | 0 => Char.ofNat 0xEF :: Char.ofNat 0xBF :: Char.ofNat 0xBD :: coerceUTF8 0 cs
      | n + 1 => c :: coerceUTF8 n cs

/-- The string that comes back from the file for a Go string that
`encoding/json` wrote. -/
def toValidUTF8 (s : String) : String :=
  String.mk (coerceUTF8 0 s.data)

/-- The Go string is valid UTF-8: `encoding/json` writes it as it is. -/
def ValidUTF8 (s : String) : Prop :=
  toValidUTF8 s = s

instance (s : String) : Decidable (ValidUTF8 s) := by
  unfold ValidUTF8; infer_instance

/-- The JSON object `json.MarshalIndent` writes for a `Profile`: the fields in
the order of the struct, those tagged `omitempty` left out when empty. -/
def marshalProfile (p : Profile) : Json :=
  .object ((profileFields.filter (fun f => !(f.2.2.2 && f.2.1 p = ""))).map
    (fun f => (f.1, .string (toValidUTF8 (f.2.1 p)))))

/-- The JSON value `json.MarshalIndent` writes for the map: null for the nil
map, else an object with the keys in sorted order. -/
def marshalProfiles (m : ProfileMap) : Json :=
  match m with
  | none => .null
  | some s =>
    .object ((s.entries.insertionSort (fun a b => a.1 ≤ b.1)).map
      (fun e => (toValidUTF8 e.1, marshalProfile e.2)))

/-- The JSON value `json.MarshalIndent` writes for a `Config`. -/
def marshalConfig (c : Config) : Json :=
  .object [("default_profile", .string (toValidUTF8 c.DefaultProfile)),
    ("profiles", marshalProfiles c.Profiles)]

/-- Every string of the profile is valid UTF-8. -/
def Profile.ValidUTF8 (p : Profile) : Prop :=
  ∀ f ∈ profileFields, S3Hero.ValidUTF8 (f.2.1 p)

/-- Every string of the Config is valid UTF-8: the default, the keys of the
map and the fields of the profiles. -/
def Config.ValidUTF8 (c : Config) : Prop :=
  S3Hero.ValidUTF8 c.DefaultProfile ∧
    ∀ e ∈ c.Profiles.entries, S3Hero.ValidUTF8 e.1 ∧ e.2.ValidUTF8

instance (p : Profile) : Decidable p.ValidUTF8 := by
  unfold Profile.ValidUTF8; infer_instance

instance (c : Config) : Decidable c.ValidUTF8 := by
  unfold Config.ValidUTF8; infer_instance

/-- The file after `Save` has written the Config c to it. -/
def written (c : Config) : File :=
  .json (marshalConfig c)

/-- A stand-in for the folding of names in the examples. `encoding/json` folds
names by Unicode simple case folding, under which U+017F and U+212A also
select the fields written with s and k; `asciiFold` folds the ASCII letters
only, to upper case, and leaves every other character alone. The keys of the
examples are the exact names of the fields, which are matched before any
folding, and the theorems hold for every folding. -/
def asciiFold (s : String) : String :=
  String.mk (s.data.map Char.toUpper)

/-! ## Sequences of calls -/

/-- A call of one of the mutating operations, with the behaviour of the
environment during the call. -/
inductive Call where
  | add (profile : Profile) (write : Option String)
  | delete (name : String) (seed : Nat) (write : Option String)
  | setDefault (name : String) (write : Option String)

/-- The effect of one call. -/
def exec (m : Manager) : Call → Manager × Result
  | .add profile write => AddProfile m profile write
  | .delete name seed write => DeleteProfile m name seed write
  | .setDefault name write => SetDefault m name write

/-- The manager after a sequence of calls, whatever each of them returned. -/
def run (m : Manager) : List Call → Manager
  | [] => m
  | c :: cs => run (exec m c).1 cs

/-! ## The manager over the Profile objects of the caller -/

/-- The address of a Profile object. -/
abbrev Addr := Nat

/-- The memory of the program: its Profile objects, and the Config of the
manager as it is in memory, whose map holds pointers to them. `AddProfile`
stores the pointer it is given (config.go:108), and `GetProfile` returns the
stored pointer, so the caller can write to a Profile that the map holds. -/
structure Memory where
  heap : Addr → Profile
  DefaultProfile : String
  Profiles : Option (AList (fun _ : String => Addr))

/-- What the program does to the memory: a call of the manager, or an
assignment of the caller to one of its Profile objects. The memory a call
leaves does not depend on what its write to the file returns, so the calls
carry no result of the write here. -/
inductive Action where
  /-- AddProfile(p). -/
  | add (p : Addr)
  /-- DeleteProfile(name), with the order of its range loop. -/
  | delete (name : String) (seed : Nat)
  /-- SetDefault(name). -/
  | setDefault (name : String)
  /-- The caller makes the Profile at p the record v, by `*p = v` or by
  assignments to its fields; so also does it set up a new Profile. -/
  | assign (p : Addr) (v : Profile)

/-- The memory when `NewManager` has found no file: an allocated, empty map
and no default. -/
def Memory.fresh : Memory :=
  { heap := fun _ => zeroProfile, DefaultProfile := "", Profiles := some ∅ }

/-- The expression `m[k]` on the map of pointers. -/
def Memory.lookup (mem : Memory) (k : String) : Option Addr :=
  match mem.Profiles with
  | none => none
  | some s => s.lookup k

/-- The keys of the map of pointers. -/
def Memory.keys (mem : Memory) : List String :=
  match mem.Profiles with
  | none => []
  | some s => s.keys

/-- The entries of the map of pointers. -/
def Memory.entries (mem : Memory) : List (Sigma fun _ : String => Addr) :=
  match mem.Profiles with
  | none => []
  | some s => s.entries

/-- The addresses the map holds. -/
def Memory.held (mem : Memory) : List Addr :=
  mem.entries.map (fun e => e.2)

/-- The memory after one action. The calls are those of `AddProfile`,
`DeleteProfile` and `SetDefault`, with the map holding the pointer. -/
def Memory.step (mem : Memory) : Action → Memory
  | .add p =>
    if (mem.heap p).Name = "" then mem
    else
      match mem.Profiles with
      | none => mem
      | some s =>
        let profiles := s.insert (mem.heap p).Name p
        { mem with
          Profiles := some profiles
          DefaultProfile :=
            if profiles.entries.length = 1 then (mem.heap p).Name else mem.DefaultProfile }
  | .delete name seed =>
    match mem.Profiles with
    | none => mem
    | some s =>
      match s.lookup name with
      | none => mem
      | some _ =>
        let profiles := s.erase name
        { mem with
          Profiles := some profiles
          DefaultProfile :=
            if mem.DefaultProfile = name then
              match rangeOrder profiles.keys seed with
              | [] => ""
              | n :: _ => n
            else mem.DefaultProfile }
  | .setDefault name =>
    match mem.lookup name with
    | none => mem
    | some _ => { mem with DefaultProfile := name }
  | .assign p v => { mem with heap := Function.update mem.heap p v }

/-- The memory after a sequence of actions. -/
def Memory.run (mem : Memory) : List Action → Memory
  | [] => mem
  | a :: as => Memory.run (mem.step a) as

/-- The caller keeps the names of the Profiles that the map holds: every
assignment of the sequence to a Profile whose pointer is in the map at that
time leaves the name field of that Profile as it is. -/
def Memory.namesKept (mem : Memory) : List Action → Bool
  | [] => true
  | .assign p v :: as =>
    decide (p ∈ mem.held → v.Name = (mem.heap p).Name) &&
      Memory.namesKept (mem.step (.assign p v)) as
  | a :: as => Memory.namesKept (mem.step a) as

/-- Key/name agreement in memory: every key of the map equals the name field
of the Profile its pointer points to. -/
def Memory.KeyNameAgree (mem : Memory) : Prop :=
  ∀ e ∈ mem.entries, e.1 = (mem.heap e.2).Name

/-- The Config of the copying embedding that a memory shows: every pointer of
the map replaced by the Profile it points to. -/
def Memory.view (mem : Memory) : Config :=
  { DefaultProfile := mem.DefaultProfile
    Profiles :=
      match mem.Profiles with
      | none => none
      | some s =>
        some ⟨s.entries.map (fun e => ⟨e.1, mem.heap e.2⟩), by
          have h := s.nodupKeys
          rw [List.NodupKeys] at h ⊢
          simpa [List.keys, List.map_map, Function.comp_def] using h⟩ }

/-! ## The names a sequence of adds and deletes leaves -/

/-- A call of AddProfile or of DeleteProfile, with the behaviour of the
environment during the call. -/
inductive Edit where
  | add (profile : Profile) (write : Option String)
  | delete (name : String) (seed : Nat) (write : Option String)

/-- The call as one of the calls of the manager. -/
def Edit.toCall : Edit → Call
  | .add profile write => .add profile write
  | .delete name seed write => .delete name seed write

/-- The result of the write to the file during the call, if the call gets as
far as Save. -/
def Edit.writeResult : Edit → Option String
  | .add _ write => write
  | .delete _ _ write => write

/-- What the calls return, in call order. -/
def results (m : Manager) : List Call → List Result
  | [] => []
  | c :: cs => (exec m c).2 :: results (exec m c).1 cs

/-- The call was successful: it returned nil. -/
def Result.succeeded : Result → Bool
  | .ok => true
  | _ => false

/-- Whether a call counts for the names, told from its input and the names
before it alone: an add counts when the name of its profile is not empty, a
delete counts when its name is among the names. -/
def Edit.counts (names : Finset String) : Edit → Bool
  | .add profile _ => decide (profile.Name ≠ "")
  | .delete name _ _ => decide (name ∈ names)

/-- One call replayed on a set of names: an add that counts is an insertion, a
delete that counts is a removal, a call that does not count changes
nothing. -/
def Edit.replay (names : Finset String) (e : Edit) : Finset String :=
  if e.counts names then
    match e with
    | .add profile _ => insert profile.Name names
    | .delete name _ _ => names.erase name
  else names

/-- The set of names obtained by replaying the calls in call order. It is told
from the inputs of the calls alone. -/
def replayEdits : Finset String → List Edit → Finset String
  | names, [] => names
  | names, e :: es => replayEdits (e.replay names) es

/-- Which of the calls count, in call order, told from the inputs of the calls
alone. -/
def countedEdits : Finset String → List Edit → List Bool
  | _, [] => []
  | names, e :: es => e.counts names :: countedEdits (e.replay names) es

/-- The replay as the claim words it: the set of names obtained by replaying,
in call order, the successful adds as insertions and the successful deletes
as removals. Whether a call is successful is what it returned, so this replay
follows the run of the manager. -/
def replaySuccessful : Manager → Finset String → List Edit → Finset String
  | _, names, [] => names
  | m, names, e :: es =>
    replaySuccessful (exec m e.toCall).1
      (if (exec m e.toCall).2.succeeded then
        match e with
        | .add profile _ => insert profile.Name names
        | .delete name _ _ => names.erase name
      else names) es

/-! ## Sample data -/

/-- The profile "work" of the scenarios. -/
def work : Profile :=
  { Name := "work", Provider := "aws", AccessKeyID := "AKIAWORK", SecretAccessKey := "s3cr3t",
    Region := "us-east-1", Endpoint := "", AccountID := "" }

/-- The profile "home" of the scenarios. -/
def home : Profile :=
  { Name := "home", Provider := "cloudflare", AccessKeyID := "r2key", SecretAccessKey := "r2secret",
    Region := "auto", Endpoint := "https://r2.example.com", AccountID := "acct42" }

/-- A profile without a name. -/
def nameless : Profile :=
  { Name := "", Provider := "custom", AccessKeyID := "k", SecretAccessKey := "s",
    Region := "", Endpoint := "http://localhost:9000", AccountID := "" }

/-- The manager after adding "work" and then "home" to the fresh manager. -/
def workHome : Manager :=
  run fresh [.add work none, .add home none]

/-- The manager after adding "work" to the fresh manager. -/
def workOnly : Manager :=
  run fresh [.add work none]

/-- A Config that holds only "home", its default. -/
def homeOnlyConfig : Config :=
  { DefaultProfile := "home", Profiles := some (AList.singleton "home" home) }

/-- A Go string that is not valid UTF-8: the bytes 'a', 0xFF, 'b'. -/
def badName : String :=
  String.mk ['a', Char.ofNat 0xFF, 'b']

/-- A Config that holds one profile, whose name, also its key and the default,
is not valid UTF-8. -/
def badConfig : Config :=
  { DefaultProfile := badName,
    Profiles := some (AList.singleton badName { work with Name := badName }) }

/-- The content of a configuration file that holds the profile "home" and no
"default_profile" member. -/
def homeJson : Json :=
  .object [("profiles", .object [("home", marshalProfile home)])]

/-- The manager that holds "work", its default, and "home". -/
def workThenHome : Manager :=
  { config :=
      { DefaultProfile := "work",
        Profiles := some (AList.insert "home" home (AList.insert "work" work ∅)) },
    writes := workOnly.writes }

/-- A configuration file whose "profiles" member is null. -/
def nullProfilesFile : File :=
  .json (.object [("default_profile", .string ""), ("profiles", .null)])

/-- A configuration file without a "profiles" member. -/
def noProfilesFile : File :=
  .json (.object [("default_profile", .string "")])

/-! ## The invariants of the data model -/

/-- Key/name agreement: every key of `profiles` equals the `name` field of its
value. -/
def KeyNameAgree (c : Config) : Prop :=
  ∀ e ∈ c.Profiles.entries, e.1 = e.2.Name

/-- Default validity: `defaultProfile` is either empty or a key present in
`profiles`. -/
def DefaultValid (c : Config) : Prop :=
  c.DefaultProfile = "" ∨ c.DefaultProfile ∈ c.Profiles.keys

/-- Non-empty names: `Profile.name` is never empty for a stored entry. -/
def NamesNonEmpty (c : Config) : Prop :=
  ∀ e ∈ c.Profiles.entries, e.2.Name ≠ ""

/-- The three invariants of the data model. -/
structure Invariants (c : Config) : Prop where
  keyNameAgree : KeyNameAgree c
  defaultValid : DefaultValid c
  namesNonEmpty : NamesNonEmpty c

instance (c : Config) : Decidable (KeyNameAgree c) := by
  unfold KeyNameAgree; infer_instance

instance (c : Config) : Decidable (DefaultValid c) := by
  unfold DefaultValid; infer_instance

instance (c : Config) : Decidable (NamesNonEmpty c) := by
  unfold NamesNonEmpty; infer_instance

/-! ## Facts about the Go map -/

theorem ProfileMap.mem_keys_iff_lookup (m : ProfileMap) (k : String) :
    k ∈ m.keys ↔ ∃ p, m.lookup k = some p := by
  cases m with
  | none => simp [ProfileMap.keys, ProfileMap.lookup]
  | some s =>
    simp only [ProfileMap.keys, ProfileMap.lookup]
    rw [← AList.mem_keys, ← AList.lookup_isSome, Option.isSome_iff_exists]

theorem ProfileMap.lookup_eq_none_iff (m : ProfileMap) (k : String) :
    m.lookup k = none ↔ k ∉ m.keys := by
  rw [ProfileMap.mem_keys_iff_lookup]
  cases m.lookup k <;> simp

theorem ProfileMap.lookup_iff_mem_entries (m : ProfileMap) (k : String) (p : Profile) :
    m.lookup k = some p ↔ Sigma.mk k p ∈ m.entries := by
  cases m with
  | none => simp [ProfileMap.entries, ProfileMap.lookup]
  | some s =>
    simp only [ProfileMap.entries, ProfileMap.lookup]
    rw [← AList.mem_lookup_iff, Option.mem_def]

theorem ProfileMap.keys_nodup (m : ProfileMap) : m.keys.Nodup := by
  cases m with
  | none => simp [ProfileMap.keys]
  | some s => exact s.keys_nodup

theorem ProfileMap.mem_keys_delete (m : ProfileMap) (k a : String) :
    a ∈ (m.delete k).keys ↔ a ≠ k ∧ a ∈ m.keys := by
  cases m with
  | none => simp [ProfileMap.keys, ProfileMap.delete]
  | some s =>
    simp only [ProfileMap.keys, ProfileMap.delete]
    rw [← AList.mem_keys, ← AList.mem_keys, AList.mem_erase]

theorem ProfileMap.lookup_delete (m : ProfileMap) (k a : String) :
    (m.delete k).lookup a = if a = k then none else m.lookup a := by
  cases m with
  | none => simp [ProfileMap.lookup, ProfileMap.delete]
  | some s =>
    simp only [ProfileMap.lookup, ProfileMap.delete]
    by_cases h : a = k
    · subst h; simp
    · simp [h]

/-! ## Facts about the order of a `range` loop -/

theorem rangeOrder_perm (ks : List String) : ∀ seed, (rangeOrder ks seed).Perm ks := by
  induction ks with
  | nil => intro seed; simp [rangeOrder]
  | cons k ks ih =>
    intro seed
    have hlen : (rangeOrder ks (seed / (ks.length + 1))).length = ks.length := (ih _).length_eq
    have hle : seed % (ks.length + 1) ≤ (rangeOrder ks (seed / (ks.length + 1))).length := by
      rw [hlen]; exact Nat.lt_succ_iff.mp (Nat.mod_lt _ (Nat.succ_pos _))
    exact (List.perm_insertIdx k _ hle).trans ((ih _).cons k)

theorem insertIdx_length_append (a b : List String) (k : String) :
    (a ++ b).insertIdx a.length k = a ++ k :: b := by
  induction a with
  | nil => simp
  | cons x a ih => simp [List.insertIdx_succ_cons, ih]

/-- Every order of the keys is the order of some seed. -/
theorem rangeOrder_complete (ks : List String) :
    ∀ l : List String, l.Perm ks → ∃ seed, rangeOrder ks seed = l := by
  induction ks with
  | nil => intro l hl; exact ⟨0, by simp [rangeOrder, hl.eq_nil]⟩
  | cons k ks ih =>
    intro l hl
    have hk : k ∈ l := hl.mem_iff.mpr (List.mem_cons_self k ks)
    obtain ⟨a, b, rfl⟩ := List.append_of_mem hk
    have hab : (a ++ b).Perm ks := (List.perm_middle.symm.trans hl).cons_inv
    obtain ⟨seed, hseed⟩ := ih (a ++ b) hab
    have hlt : a.length < ks.length + 1 := by
      have := hab.length_eq
      simp only [List.length_append] at this
      omega
    refine ⟨a.length + (ks.length + 1) * seed, ?_⟩
    have h1 : (a.length + (ks.length + 1) * seed) % (ks.length + 1) = a.length := by
      rw [Nat.add_mul_mod_self_left, Nat.mod_eq_of_lt hlt]
    have h2 : (a.length + (ks.length + 1) * seed) / (ks.length + 1) = seed := by
      rw [Nat.add_mul_div_left _ _ (Nat.succ_pos _), Nat.div_eq_of_lt hlt, Nat.zero_add]
    simp only [rangeOrder, h1, h2, hseed]
    exact insertIdx_length_append a b k

theorem foldl_append_singleton (l : List String) :
    ∀ acc : List String, l.foldl (fun names name => names ++ [name]) acc = acc ++ l := by
  induction l with
  | nil => intro acc; simp
  | cons x l ih => intro acc; simp [ih]

theorem ListProfiles_perm (m : Manager) (seed : Nat) :
    (ListProfiles m seed).Perm m.config.Profiles.keys := by
  unfold ListProfiles
  rw [foldl_append_singleton, List.nil_append]
  exact rangeOrder_perm _ _

/-! ## The effect of each operation on the Config -/

/-- AddProfile leaves the Config alone or stores the profile in an allocated
map, making it the default when it is then the only entry. -/
theorem AddProfile_config (m : Manager) (profile : Profile) (write : Option String) :
    (AddProfile m profile write).1.config = m.config ∨
    ∃ s, m.config.Profiles = some s ∧ profile.Name ≠ "" ∧
      (AddProfile m profile write).1.config =
        { DefaultProfile :=
            if (s.insert profile.Name profile).entries.length = 1 then profile.Name
            else m.config.DefaultProfile,
          Profiles := some (s.insert profile.Name profile) } := by
  unfold AddProfile
  by_cases hname : profile.Name = ""
  · left; simp [hname]
  · cases hs : m.config.Profiles with
    | none => left; simp [hname, hs, ProfileMap.store]
    | some s =>
      right
      refine ⟨s, rfl, hname, ?_⟩
      simp only [hname, hs, ProfileMap.store, ProfileMap.len, Save, if_false]
      split <;> rfl

/-- DeleteProfile leaves the Config alone when the name is absent; otherwise
it deletes the entry and, when the name was the default, makes the first key
of a range over the remaining map the default, or "" if none remains. -/
theorem DeleteProfile_config (m : Manager) (name : String) (seed : Nat)
    (write : Option String) :
    (name ∉ m.config.Profiles.keys ∧ (DeleteProfile m name seed write).1 = m) ∨
    (name ∈ m.config.Profiles.keys ∧
      (DeleteProfile m name seed write).1.config =
        { DefaultProfile :=
            if m.config.DefaultProfile = name then
              (rangeOrder (m.config.Profiles.delete name).keys seed).headD ""
            else m.config.DefaultProfile,
          Profiles := m.config.Profiles.delete name }) := by
  unfold DeleteProfile
  cases hl : m.config.Profiles.lookup name with
  | none =>
    left
    exact ⟨(ProfileMap.lookup_eq_none_iff _ _).mp hl, rfl⟩
  | some p =>
    right
    refine ⟨(ProfileMap.mem_keys_iff_lookup _ _).mpr ⟨p, hl⟩, ?_⟩
    simp only [Save]
    by_cases hd : m.config.DefaultProfile = name
    · simp only [hd, if_true]
      cases rangeOrder (m.config.Profiles.delete name).keys seed <;> rfl
    · simp only [hd, if_false]

/-- SetDefault leaves the Config alone when the name is absent and otherwise
changes the default only. -/
theorem SetDefault_config (m : Manager) (name : String) (write : Option String) :
    (name ∉ m.config.Profiles.keys ∧ (SetDefault m name write).1 = m) ∨
    (name ∈ m.config.Profiles.keys ∧
      (SetDefault m name write).1.config = { m.config with DefaultProfile := name }) := by
  unfold SetDefault
  cases hl : m.config.Profiles.lookup name with
  | none =>
    left
    exact ⟨(ProfileMap.lookup_eq_none_iff _ _).mp hl, rfl⟩
  | some p =>
    right
    exact ⟨(ProfileMap.mem_keys_iff_lookup _ _).mpr ⟨p, hl⟩, rfl⟩

/-! ## Default validity -/

theorem AddProfile_defaultValid (m : Manager) (profile : Profile) (write : Option String)
    (h : DefaultValid m.config) : DefaultValid (AddProfile m profile write).1.config := by
  rcases AddProfile_config m profile write with hc | ⟨s, hs, _, hc⟩
  · rw [hc]; exact h
  · rw [hc]
    unfold DefaultValid at h ⊢
    simp only [ProfileMap.keys]
    split
    · right; rw [← AList.mem_keys, AList.mem_insert]; exact Or.inl rfl
    · rcases h with h | h
      · exact Or.inl h
      · right
        rw [hs] at h
        rw [← AList.mem_keys, AList.mem_insert]
        exact Or.inr h

theorem DeleteProfile_defaultValid (m : Manager) (name : String) (seed : Nat)
    (write : Option String) (h : DefaultValid m.config) :
    DefaultValid (DeleteProfile m name seed write).1.config := by
  rcases DeleteProfile_config m name seed write with ⟨_, hc⟩ | ⟨_, hc⟩
  · rw [hc]; exact h
  · rw [hc]
    unfold DefaultValid at h ⊢
    simp only
    split
    · have hperm := rangeOrder_perm (m.config.Profiles.delete name).keys seed
      cases hr : rangeOrder (m.config.Profiles.delete name).keys seed with
      | nil => left; rfl
      | cons n rest =>
        right
        rw [hr] at hperm
        exact hperm.mem_iff.mp (List.mem_cons_self n rest)
    · next hne =>
      rcases h with h | h
      · exact Or.inl h
      · right
        exact (ProfileMap.mem_keys_delete _ _ _).mpr ⟨hne, h⟩

theorem SetDefault_defaultValid (m : Manager) (name : String) (write : Option String)
    (h : DefaultValid m.config) : DefaultValid (SetDefault m name write).1.config := by
  rcases SetDefault_config m name write with ⟨_, hc⟩ | ⟨hk, hc⟩
  · rw [hc]; exact h
  · rw [hc]; exact Or.inr hk

theorem exec_defaultValid (m : Manager) (c : Call) (h : DefaultValid m.config) :
    DefaultValid (exec m c).1.config := by
  cases c with
  | add profile write => exact AddProfile_defaultValid m profile write h
  | delete name seed write => exact DeleteProfile_defaultValid m name seed write h
  | setDefault name write => exact SetDefault_defaultValid m name write h

theorem run_defaultValid (calls : List Call) :
    ∀ m : Manager, DefaultValid m.config → DefaultValid (run m calls).config := by
  induction calls with
  | nil => intro m h; exact h
  | cons c cs ih => intro m h; exact ih _ (exec_defaultValid m c h)

/-! ## Key/name agreement -/

theorem ProfileMap.entries_delete_subset (m : ProfileMap) (k : String) :
    (m.delete k).entries ⊆ m.entries := by
  cases m with
  | none => simp [ProfileMap.delete, ProfileMap.entries]
  | some s => exact (List.kerase_sublist k s.entries).subset

theorem AddProfile_keyNameAgree (m : Manager) (profile : Profile) (write : Option String)
    (h : KeyNameAgree m.config) : KeyNameAgree (AddProfile m profile write).1.config := by
  rcases AddProfile_config m profile write with hc | ⟨s, hs, _, hc⟩
  · rw [hc]; exact h
  · rw [hc]
    intro e he
    simp only [ProfileMap.entries, AList.insert_entries, List.mem_cons] at he
    rcases he with he | he
    · rw [he]
    · apply h e
      rw [hs]
      exact (List.kerase_sublist profile.Name s.entries).subset he

theorem DeleteProfile_keyNameAgree (m : Manager) (name : String) (seed : Nat)
    (write : Option String) (h : KeyNameAgree m.config) :
    KeyNameAgree (DeleteProfile m name seed write).1.config := by
  rcases DeleteProfile_config m name seed write with ⟨_, hc⟩ | ⟨_, hc⟩
  · rw [hc]; exact h
  · rw [hc]
    intro e he
    exact h e (ProfileMap.entries_delete_subset _ _ he)

theorem SetDefault_keyNameAgree (m : Manager) (name : String) (write : Option String)
    (h : KeyNameAgree m.config) : KeyNameAgree (SetDefault m name write).1.config := by
  rcases SetDefault_config m name write with ⟨_, hc⟩ | ⟨_, hc⟩
  · rw [hc]; exact h
  · rw [hc]; exact h

theorem run_keyNameAgree (calls : List Call) :
    ∀ m : Manager, KeyNameAgree m.config → KeyNameAgree (run m calls).config := by
  induction calls with
  | nil => intro m h; exact h
  | cons c cs ih =>
    intro m h
    apply ih
    cases c with
    | add profile write => exact AddProfile_keyNameAgree m profile write h
    | delete name seed write => exact DeleteProfile_keyNameAgree m name seed write h
    | setDefault name write => exact SetDefault_keyNameAgree m name write h

/-! ## Consequences of the invariants -/

theorem Invariants.key_ne_empty {c : Config} (h : Invariants c) {k : String}
    (hk : k ∈ c.Profiles.keys) : k ≠ "" := by
  obtain ⟨p, hp⟩ := (ProfileMap.mem_keys_iff_lookup _ _).mp hk
  have he := (ProfileMap.lookup_iff_mem_entries _ _ _).mp hp
  have h1 := h.keyNameAgree _ he
  have h2 := h.namesNonEmpty _ he
  simp only at h1 h2
  rw [h1]; exact h2

theorem rangeOrder_headD_mem (ks : List String) (seed : Nat) (h : ks ≠ []) :
    (rangeOrder ks seed).headD "" ∈ ks := by
  have hperm := rangeOrder_perm ks seed
  cases hr : rangeOrder ks seed with
  | nil => rw [hr] at hperm; exact absurd hperm.symm.eq_nil h
  | cons n rest =>
    rw [hr] at hperm
    exact hperm.mem_iff.mp (List.mem_cons_self n rest)

/-! ## Non-empty names -/

theorem AddProfile_namesNonEmpty (m : Manager) (profile : Profile) (write : Option String)
    (h : NamesNonEmpty m.config) : NamesNonEmpty (AddProfile m profile write).1.config := by
  rcases AddProfile_config m profile write with hc | ⟨s, hs, hname, hc⟩
  · rw [hc]; exact h
  · rw [hc]
    intro e he
    simp only [ProfileMap.entries, AList.insert_entries, List.mem_cons] at he
    rcases he with he | he
    · rw [he]; exact hname
    · apply h e
      rw [hs]
      exact (List.kerase_sublist profile.Name s.entries).subset he

theorem DeleteProfile_namesNonEmpty (m : Manager) (name : String) (seed : Nat)
    (write : Option String) (h : NamesNonEmpty m.config) :
    NamesNonEmpty (DeleteProfile m name seed write).1.config := by
  rcases DeleteProfile_config m name seed write with ⟨_, hc⟩ | ⟨_, hc⟩
  · rw [hc]; exact h
  · rw [hc]
    intro e he
    exact h e (ProfileMap.entries_delete_subset _ _ he)

theorem SetDefault_namesNonEmpty (m : Manager) (name : String) (write : Option String)
    (h : NamesNonEmpty m.config) : NamesNonEmpty (SetDefault m name write).1.config := by
  rcases SetDefault_config m name write with ⟨_, hc⟩ | ⟨_, hc⟩
  · rw [hc]; exact h
  · rw [hc]; exact h

theorem run_namesNonEmpty (calls : List Call) :
    ∀ m : Manager, NamesNonEmpty m.config → NamesNonEmpty (run m calls).config := by
  induction calls with
  | nil => intro m h; exact h
  | cons c cs ih =>
    intro m h
    apply ih
    cases c with
    | add profile write => exact AddProfile_namesNonEmpty m profile write h
    | delete name seed write => exact DeleteProfile_namesNonEmpty m name seed write h
    | setDefault name write => exact SetDefault_namesNonEmpty m name write h

/-- The three invariants hold after every sequence of calls on the fresh
manager. -/
theorem run_fresh_invariants (calls : List Call) : Invariants (run fresh calls).config :=
  { keyNameAgree :=
      run_keyNameAgree calls fresh (by intro e he; simp [fresh, ProfileMap.entries] at he)
    defaultValid := run_defaultValid calls fresh (Or.inl rfl)
    namesNonEmpty :=
      run_namesNonEmpty calls fresh (by intro e he; simp [fresh, ProfileMap.entries] at he) }

/-! ## A default whenever there is a profile -/

/-- The mapping is empty and there is no default, or the default is a key. -/
theorem AddProfile_defaultSet (m : Manager) (profile : Profile) (write : Option String)
    (h : (m.config.Profiles.keys = [] ∧ m.config.DefaultProfile = "") ∨
      m.config.DefaultProfile ∈ m.config.Profiles.keys) :
    ((AddProfile m profile write).1.config.Profiles.keys = [] ∧
        (AddProfile m profile write).1.config.DefaultProfile = "") ∨
      (AddProfile m profile write).1.config.DefaultProfile ∈
        (AddProfile m profile write).1.config.Profiles.keys := by
  rcases AddProfile_config m profile write with hc | ⟨s, hs, _, hc⟩
  · rw [hc]; exact h
  · rw [hc]
    right
    simp only [ProfileMap.keys]
    rw [← AList.mem_keys, AList.mem_insert]
    split
    · exact Or.inl rfl
    · next hlen =>
      rcases h with ⟨hnil, _⟩ | h
      · exfalso
        apply hlen
        rw [hs] at hnil
        have hent : s.entries = [] := List.map_eq_nil_iff.mp hnil
        simp [AList.insert_entries, hent]
      · rw [hs] at h
        exact Or.inr h

theorem DeleteProfile_defaultSet (m : Manager) (name : String) (seed : Nat)
    (write : Option String)
    (h : (m.config.Profiles.keys = [] ∧ m.config.DefaultProfile = "") ∨
      m.config.DefaultProfile ∈ m.config.Profiles.keys) :
    ((DeleteProfile m name seed write).1.config.Profiles.keys = [] ∧
        (DeleteProfile m name seed write).1.config.DefaultProfile = "") ∨
      (DeleteProfile m name seed write).1.config.DefaultProfile ∈
        (DeleteProfile m name seed write).1.config.Profiles.keys := by
  rcases DeleteProfile_config m name seed write with ⟨_, hc⟩ | ⟨hk, hc⟩
  · rw [hc]; exact h
  · rw [hc]
    simp only
    split
    · by_cases hnil : (m.config.Profiles.delete name).keys = []
      · left
        refine ⟨hnil, ?_⟩
        rw [hnil]; rfl
      · right
        exact rangeOrder_headD_mem _ seed hnil
    · next hne =>
      rcases h with ⟨hnil, _⟩ | h
      · rw [hnil] at hk; exact absurd hk (List.not_mem_nil _)
      · right
        exact (ProfileMap.mem_keys_delete _ _ _).mpr ⟨hne, h⟩

theorem SetDefault_defaultSet (m : Manager) (name : String) (write : Option String)
    (h : (m.config.Profiles.keys = [] ∧ m.config.DefaultProfile = "") ∨
      m.config.DefaultProfile ∈ m.config.Profiles.keys) :
    ((SetDefault m name write).1.config.Profiles.keys = [] ∧
        (SetDefault m name write).1.config.DefaultProfile = "") ∨
      (SetDefault m name write).1.config.DefaultProfile ∈
        (SetDefault m name write).1.config.Profiles.keys := by
  rcases SetDefault_config m name write with ⟨_, hc⟩ | ⟨hk, hc⟩
  · rw [hc]; exact h
  · rw [hc]; exact Or.inr hk

theorem run_defaultSet (calls : List Call) :
    ∀ m : Manager,
      ((m.config.Profiles.keys = [] ∧ m.config.DefaultProfile = "") ∨
        m.config.DefaultProfile ∈ m.config.Profiles.keys) →
      (((run m calls).config.Profiles.keys = [] ∧ (run m calls).config.DefaultProfile = "") ∨
        (run m calls).config.DefaultProfile ∈ (run m calls).config.Profiles.keys) := by
  induction calls with
  | nil => intro m h; exact h
  | cons c cs ih =>
    intro m h
    apply ih
    cases c with
    | add profile write => exact AddProfile_defaultSet m profile write h
    | delete name seed write => exact DeleteProfile_defaultSet m name seed write h
    | setDefault name write => exact SetDefault_defaultSet m name write h

/-! ## What each operation returns -/

theorem AddProfile_of_some (m : Manager) (profile : Profile) (write : Option String)
    (s : Entries) (hname : profile.Name ≠ "") (hs : m.config.Profiles = some s) :
    (AddProfile m profile write).2 = saveResult write ∧
    (AddProfile m profile write).1.config =
      { DefaultProfile :=
          if (s.insert profile.Name profile).entries.length = 1 then profile.Name
          else m.config.DefaultProfile,
        Profiles := some (s.insert profile.Name profile) } := by
  refine ⟨?_, ?_⟩
  · simp only [AddProfile, hname, hs, ProfileMap.store, Save, if_false]
    rfl
  · simp only [AddProfile, hname, hs, ProfileMap.store, ProfileMap.len, Save, if_false]
    split <;> rfl

theorem AddProfile_of_nil (m : Manager) (profile : Profile) (write : Option String)
    (hname : profile.Name ≠ "") (hs : m.config.Profiles = none) :
    AddProfile m profile write = (m, .panic) := by
  simp [AddProfile, hname, hs, ProfileMap.store]

theorem DeleteProfile_result_of_mem (m : Manager) (name : String) (seed : Nat)
    (write : Option String) (hk : name ∈ m.config.Profiles.keys) :
    (DeleteProfile m name seed write).2 = saveResult write := by
  obtain ⟨p, hp⟩ := (ProfileMap.mem_keys_iff_lookup _ _).mp hk
  simp only [DeleteProfile, hp, Save]
  rfl

theorem DeleteProfile_of_not_mem (m : Manager) (name : String) (seed : Nat)
    (write : Option String) (hk : name ∉ m.config.Profiles.keys) :
    DeleteProfile m name seed write = (m, .err (notFound name)) := by
  have hl := (ProfileMap.lookup_eq_none_iff _ _).mpr hk
  simp only [DeleteProfile, hl]

theorem SetDefault_result_of_mem (m : Manager) (name : String) (write : Option String)
    (hk : name ∈ m.config.Profiles.keys) :
    (SetDefault m name write).2 = saveResult write := by
  obtain ⟨p, hp⟩ := (ProfileMap.mem_keys_iff_lookup _ _).mp hk
  simp only [SetDefault, hp, Save]
  rfl

theorem rangeOrder_singleton (k : String) (seed : Nat) : rangeOrder [k] seed = [k] := by
  simp [rangeOrder, Nat.mod_one]

theorem DeleteProfile_of_default (m : Manager) (name : String) (seed : Nat)
    (write : Option String) (hk : name ∈ m.config.Profiles.keys)
    (hd : m.config.DefaultProfile = name) :
    (DeleteProfile m name seed write).1.config =
      { DefaultProfile := (rangeOrder (m.config.Profiles.delete name).keys seed).headD "",
        Profiles := m.config.Profiles.delete name } := by
  rcases DeleteProfile_config m name seed write with ⟨habs, _⟩ | ⟨_, hc⟩
  · exact absurd hk habs
  · rw [hc, if_pos hd]

/-! ## Decoding what was marshalled -/

/-- Decoding the object written for a profile into the zero `Profile` gives the
profile back, the fields left out as empty among them. -/
theorem decodeProfile_marshal (fold : String → String) (p : Profile) :
    decodeMembers (decodeProfileMember fold) zeroProfile
      ((profileFields.filter (fun f => !(f.2.2.2 && f.2.1 p = ""))).map
        (fun f => (f.1, Json.string (f.2.1 p)))) = .done p := by
  obtain ⟨n, pr, ak, sk, rg, ep, ac⟩ := p
  by_cases hE : ep = "" <;> by_cases hA : ac = "" <;>
    simp [profileFields, hE, hA, decodeMembers, decodeProfileMember, findField, zeroProfile]

/-- The object written for a profile whose strings are valid UTF-8 holds the
strings as they are. -/
theorem marshalProfile_of_valid (p : Profile) (hp : p.ValidUTF8) :
    marshalProfile p =
      .object ((profileFields.filter (fun f => !(f.2.2.2 && f.2.1 p = ""))).map
        (fun f => (f.1, Json.string (f.2.1 p)))) := by
  unfold marshalProfile
  congr 1
  apply List.map_congr_left
  intro f hf
  have hvalid : toValidUTF8 (f.2.1 p) = f.2.1 p := hp f (List.mem_of_mem_filter hf)
  rw [hvalid]

theorem decodeEntry_marshal (fold : String → String) (s : Entries) (k : String) (p : Profile)
    (hp : p.ValidUTF8) :
    decodeEntry fold s (k, marshalProfile p) = .done (s.insert k p) := by
  rw [marshalProfile_of_valid p hp]
  simp only [decodeEntry, decodeProfile_marshal]

/-- Decoding the members written for a list of entries whose strings are valid
UTF-8 stores them one after the other. -/
theorem decodeEntries_marshal (fold : String → String)
    (l : List (Sigma fun _ : String => Profile)) :
    (∀ e ∈ l, ValidUTF8 e.1 ∧ e.2.ValidUTF8) →
    ∀ s : Entries,
      decodeMembers (decodeEntry fold) s
          (l.map (fun e => (toValidUTF8 e.1, marshalProfile e.2))) =
        .done (l.foldl (fun t e => t.insert e.1 e.2) s) := by
  induction l with
  | nil => intro _ s; rfl
  | cons e l ih =>
    intro hv s
    have he := hv e (List.mem_cons_self e l)
    have hkey : toValidUTF8 e.1 = e.1 := he.1
    simp only [List.map_cons, decodeMembers, hkey, decodeEntry_marshal fold _ _ _ he.2,
      List.foldl_cons]
    exact ih (fun x hx => hv x (List.mem_cons_of_mem e hx)) _

/-- Storing a list of entries with distinct keys: a key of the list finds its
entry of the list, another key finds what it found before. -/
theorem lookup_foldl_insert (l : List (Sigma fun _ : String => Profile)) (hl : l.NodupKeys)
    (k : String) :
    ∀ s : Entries,
      (l.foldl (fun t e => t.insert e.1 e.2) s).lookup k =
        match l.dlookup k with
        | some p => some p
        | none => s.lookup k := by
  induction l with
  | nil => intro s; rfl
  | cons e l ih =>
    intro s
    obtain ⟨a, b⟩ := e
    have hnd := List.nodupKeys_cons.mp hl
    rw [List.foldl_cons, ih hnd.2]
    by_cases hk : k = a
    · subst hk
      have hnone : l.dlookup k = none := List.dlookup_eq_none.mpr hnd.1
      simp [hnone, List.dlookup_cons_eq]
    · have hne : k ≠ (Sigma.mk a b : Sigma fun _ : String => Profile).1 := hk
      rw [List.dlookup_cons_ne _ _ hne]
      cases l.dlookup k with
      | some p => rfl
      | none => exact AList.lookup_insert_ne hk

/-- Loading the file written for a Config c whose strings are valid UTF-8:
Load returns nil; the default is that of c; if the map of c is nil so is the
map in memory; if not, the map in memory is allocated, a key of c finds the
profile c has for it, and another key finds what it found before the Load. -/
theorem Load_written (fold : String → String) (m : Manager) (c : Config)
    (hv : c.ValidUTF8) :
    ∃ m', Load fold m (written c) = .ok m' ∧
      m'.writes = m.writes ∧
      m'.config.DefaultProfile = c.DefaultProfile ∧
      (c.Profiles = none → m'.config.Profiles = none) ∧
      (c.Profiles ≠ none → m'.config.Profiles ≠ none ∧
        ∀ k, m'.config.Profiles.lookup k =
          match c.Profiles.lookup k with
          | some p => some p
          | none => m.config.Profiles.lookup k) := by
  obtain ⟨d, ps⟩ := c
  have hd : toValidUTF8 d = d := hv.1
  cases ps with
  | none =>
    refine ⟨{ m with config := { DefaultProfile := d, Profiles := none } }, ?_, rfl, rfl,
      fun _ => rfl, fun h => absurd rfl h⟩
    simp [Load, written, marshalConfig, marshalProfiles, Unmarshal, decodeMembers,
      decodeConfigMember, findField, configFields, decodeProfiles, hd]
  | some s =>
    have hsorted : ∀ e ∈ s.entries.insertionSort (fun a b => a.1 ≤ b.1),
        ValidUTF8 e.1 ∧ e.2.ValidUTF8 := by
      intro e he
      exact hv.2 e ((List.perm_insertionSort _ _).mem_iff.mp he)
    refine ⟨{ m with config :=
        { DefaultProfile := d,
          Profiles := some ((s.entries.insertionSort (fun a b => a.1 ≤ b.1)).foldl
            (fun t e => t.insert e.1 e.2) (m.config.Profiles.getD ∅)) } }, ?_, rfl, rfl,
      fun h => absurd h (by simp), fun _ => ⟨by simp, ?_⟩⟩
    · simp [Load, written, marshalConfig, marshalProfiles, Unmarshal, decodeMembers,
        decodeConfigMember, findField, configFields, decodeProfiles, hd,
        decodeEntries_marshal fold _ hsorted, -String.le_iff_toList_le]
    · intro k
      have hperm : (s.entries.insertionSort (fun a b => a.1 ≤ b.1)).Perm s.entries :=
        List.perm_insertionSort _ _
      have hnd : (s.entries.insertionSort (fun a b => a.1 ≤ b.1)).NodupKeys :=
        (List.perm_nodupKeys hperm).mpr s.nodupKeys
      have hdl : (s.entries.insertionSort (fun a b => a.1 ≤ b.1)).dlookup k = s.lookup k :=
        List.perm_dlookup k hnd s.nodupKeys hperm
      simp only [ProfileMap.lookup]
      rw [lookup_foldl_insert _ hnd k, hdl]
      cases s.lookup k with
      | some p => rfl
      | none =>
        cases m.config.Profiles with
        | none => simp
        | some t => rfl

/-! ## Decoding a file over the Config in memory -/

/-- When a member of the "profiles" object is decoded without error, it stores
a profile that depends on the member alone, whatever the map it is stored
in. -/
theorem decodeEntry_done (fold : String → String) (s u : Entries) (member : String × Json)
    (h : decodeEntry fold s member = .done u) :
    ∃ p, u = s.insert member.1 p ∧
      ∀ t : Entries, decodeEntry fold t member = .done (t.insert member.1 p) := by
  unfold decodeEntry at h ⊢
  cases hv : member.2 with
  | object fields =>
    rw [hv] at h
    simp only at h ⊢
    cases hd : decodeMembers (decodeProfileMember fold) zeroProfile fields with
    | done p =>
      rw [hd] at h
      simp only [Decoded.done.injEq] at h
      exact ⟨p, h.symm, fun t => rfl⟩
    | typeError => rw [hd] at h; cases h
    | nilProfile => rw [hd] at h; cases h
  | null => rw [hv] at h; cases h
  | bool b => rw [hv] at h; cases h
  | number n => rw [hv] at h; cases h
  | string x => rw [hv] at h; cases h
  | array items => rw [hv] at h; cases h

/-- Decoding the members of a "profiles" object into two maps: if it ends
without error in the one it does so in the other, and a key finds in the one
what it finds in the other, or else what it found before in the one. -/
theorem decodeEntries_overlay (fold : String → String) (back : String → Option Profile)
    (members : List (String × Json)) :
    ∀ s s0 u : Entries,
      (∀ k, s.lookup k = match s0.lookup k with
        | some p => some p
        | none => back k) →
      decodeMembers (decodeEntry fold) s members = .done u →
      ∃ u0, decodeMembers (decodeEntry fold) s0 members = .done u0 ∧
        ∀ k, u.lookup k = match u0.lookup k with
          | some p => some p
          | none => back k := by
  induction members with
  | nil =>
    intro s s0 u hrel h
    simp only [decodeMembers, Decoded.done.injEq] at h
    subst h
    exact ⟨s0, rfl, hrel⟩
  | cons member rest ih =>
    intro s s0 u hrel h
    simp only [decodeMembers] at h ⊢
    cases hstep : decodeEntry fold s member with
    | done v =>
      rw [hstep] at h
      obtain ⟨p, hv, hall⟩ := decodeEntry_done fold s v member hstep
      rw [hall s0]
      simp only at h ⊢
      apply ih v (s0.insert member.1 p) u _ h
      intro k
      rw [hv]
      by_cases hk : k = member.1
      · subst hk
        simp
      · rw [AList.lookup_insert_ne hk, AList.lookup_insert_ne hk]
        exact hrel k
    | typeError => rw [hstep] at h; cases h
    | nilProfile => rw [hstep] at h; cases h

theorem ProfileMap.lookup_getD (m : ProfileMap) (k : String) :
    (m.getD ∅).lookup k = m.lookup k := by
  cases m with
  | none => rfl
  | some s => rfl

/-- One member of the top-level object decoded over the Config in memory and
over the Config of the file so far. -/
theorem decodeConfigMember_overlay (fold : String → String) (old now file next : Config)
    (given nulled : Bool) (member : String × Json)
    (hrel : Overlay old now file given nulled)
    (h : decodeConfigMember fold now member = .done next) :
    ∃ file', decodeConfigMember fold file member = .done file' ∧
      Overlay old next file' (given || givesDefault fold member)
        (nulled || nullsProfiles fold member) := by
  unfold decodeConfigMember at h ⊢
  unfold givesDefault nullsProfiles
  cases hf : findField fold configFields member.1 with
  | none =>
    rw [hf] at h
    simp only [Decoded.done.injEq] at h
    subst h
    exact ⟨file, rfl, by simpa using hrel⟩
  | some field =>
    rw [hf] at h
    cases field with
    | defaultProfile =>
      simp only at h ⊢
      cases hv : member.2 with
      | string x =>
        rw [hv] at h
        simp only [Decoded.done.injEq] at h
        subst h
        refine ⟨{ file with DefaultProfile := x }, rfl, ?_⟩
        exact { default := by simp
                noDefault := by simp
                lookup := by simpa using hrel.lookup }
      | null =>
        rw [hv] at h
        simp only [Decoded.done.injEq] at h
        subst h
        exact ⟨file, rfl, by simpa using hrel⟩
      | bool b => rw [hv] at h; cases h
      | number n => rw [hv] at h; cases h
      | array items => rw [hv] at h; cases h
      | object members => rw [hv] at h; cases h
    | profiles =>
      simp only at h ⊢
      unfold decodeProfiles at h ⊢
      cases hv : member.2 with
      | null =>
        rw [hv] at h
        simp only [Decoded.done.injEq] at h
        subst h
        refine ⟨{ file with Profiles := none }, rfl, ?_⟩
        exact { default := by simpa using hrel.default
                noDefault := by simpa using hrel.noDefault
                lookup := by intro k; simp [ProfileMap.lookup] }
      | object members =>
        rw [hv] at h
        simp only at h ⊢
        cases hd : decodeMembers (decodeEntry fold) (now.Profiles.getD ∅) members with
        | done u =>
          rw [hd] at h
          simp only [Decoded.done.injEq] at h
          subst h
          obtain ⟨u0, hd0, hlook⟩ := decodeEntries_overlay fold
            (fun k => if nulled then none else old.Profiles.lookup k) members
            (now.Profiles.getD ∅) (file.Profiles.getD ∅) u
            (by
              intro k
              rw [ProfileMap.lookup_getD, ProfileMap.lookup_getD]
              exact hrel.lookup k) hd
          rw [hd0]
          refine ⟨{ file with Profiles := some u0 }, rfl, ?_⟩
          exact { default := by simpa using hrel.default
                  noDefault := by simpa using hrel.noDefault
                  lookup := by
                    intro k
                    simpa [ProfileMap.lookup] using hlook k }
        | typeError => rw [hd] at h; cases h
        | nilProfile => rw [hd] at h; cases h
      | bool b => rw [hv] at h; cases h
      | number n => rw [hv] at h; cases h
      | string x => rw [hv] at h; cases h
      | array items => rw [hv] at h; cases h

/-- The members of the top-level object decoded over the Config in memory and
over the Config of the file so far. -/
theorem decodeConfig_overlay (fold : String → String) (old : Config)
    (members : List (String × Json)) :
    ∀ (now file next : Config) (given nulled : Bool),
      Overlay old now file given nulled →
      decodeMembers (decodeConfigMember fold) now members = .done next →
      ∃ file', decodeMembers (decodeConfigMember fold) file members = .done file' ∧
        Overlay old next file' (given || members.any (givesDefault fold))
          (nulled || members.any (nullsProfiles fold)) := by
  induction members with
  | nil =>
    intro now file next given nulled hrel h
    simp only [decodeMembers, Decoded.done.injEq] at h
    subst h
    exact ⟨file, rfl, by simpa using hrel⟩
  | cons member rest ih =>
    intro now file next given nulled hrel h
    simp only [decodeMembers] at h ⊢
    cases hstep : decodeConfigMember fold now member with
    | done mid =>
      rw [hstep] at h
      obtain ⟨file1, hfile1, hrel1⟩ :=
        decodeConfigMember_overlay fold old now file mid given nulled member hrel hstep
      rw [hfile1]
      simp only at h ⊢
      obtain ⟨file', hfile', hrel'⟩ := ih mid file1 next _ _ hrel1 h
      refine ⟨file', hfile', ?_⟩
      simpa [List.any_cons, Bool.or_assoc] using hrel'
    | typeError => rw [hstep] at h; cases h
    | nilProfile => rw [hstep] at h; cases h

/-! ## The names in the mapping after a sequence of adds and deletes -/

/-- One add or delete on an allocated map leaves an allocated map whose keys
are the old keys with the call replayed; it returns what Save returns if the
call counts, and an error that is not nil if it does not. -/
theorem exec_edit (m : Manager) (e : Edit) (s : Entries) (hs : m.config.Profiles = some s) :
    ∃ t : Entries, (exec m e.toCall).1.config.Profiles = some t ∧
      t.keys.toFinset = e.replay s.keys.toFinset ∧
      (exec m e.toCall).2.succeeded =
        (e.counts s.keys.toFinset && decide (e.writeResult = none)) := by
  cases e with
  | add profile write =>
    by_cases hname : profile.Name = ""
    · refine ⟨s, ?_, ?_, ?_⟩
      · simp [Edit.toCall, exec, AddProfile, hname, hs]
      · simp [Edit.replay, Edit.counts, hname]
      · simp [Edit.toCall, exec, AddProfile, hname, Edit.counts, Result.succeeded]
    · obtain ⟨hres, hc⟩ := AddProfile_of_some m profile write s hname hs
      refine ⟨s.insert profile.Name profile, ?_, ?_, ?_⟩
      · simp only [Edit.toCall, exec]; rw [hc]
      · ext a
        simp only [Edit.replay, Edit.counts, hname, ne_eq, not_false_eq_true, decide_True,
          if_true, List.mem_toFinset, Finset.mem_insert]
        rw [← AList.mem_keys, ← AList.mem_keys, AList.mem_insert]
      · simp only [Edit.toCall, exec]
        rw [hres]
        cases write <;> simp [saveResult, Result.succeeded, Edit.counts, Edit.writeResult, hname]
  | delete name seed write =>
    by_cases hk : name ∈ m.config.Profiles.keys
    · have hk2 : name ∈ s.keys := by rw [hs] at hk; exact hk
      rcases DeleteProfile_config m name seed write with ⟨habs, _⟩ | ⟨_, hc⟩
      · exact absurd hk habs
      · refine ⟨s.erase name, ?_, ?_, ?_⟩
        · simp only [Edit.toCall, exec]; rw [hc, hs]; rfl
        · ext a
          simp only [Edit.replay, Edit.counts, List.mem_toFinset, hk2, decide_True, if_true,
            Finset.mem_erase]
          rw [← AList.mem_keys, ← AList.mem_keys, AList.mem_erase]
        · simp only [Edit.toCall, exec]
          rw [DeleteProfile_result_of_mem m name seed write hk]
          cases write <;>
            simp [saveResult, Result.succeeded, Edit.counts, Edit.writeResult, hk2]
    · have hk2 : name ∉ s.keys := by rw [hs] at hk; exact hk
      refine ⟨s, ?_, ?_, ?_⟩
      · simp only [Edit.toCall, exec]
        rw [DeleteProfile_of_not_mem m name seed write hk]; exact hs
      · simp [Edit.replay, Edit.counts, hk2]
      · simp only [Edit.toCall, exec]
        rw [DeleteProfile_of_not_mem m name seed write hk]
        simp [Result.succeeded, Edit.counts, hk2]

theorem run_edits_keys (edits : List Edit) :
    ∀ (m : Manager) (s : Entries), m.config.Profiles = some s →
      (run m (edits.map Edit.toCall)).config.Profiles.keys.toFinset =
        replayEdits s.keys.toFinset edits := by
  induction edits with
  | nil => intro m s hs; simp [run, replayEdits, hs, ProfileMap.keys]
  | cons e es ih =>
    intro m s hs
    obtain ⟨t, ht, hkeys, _⟩ := exec_edit m e s hs
    simp only [List.map_cons, run, replayEdits]
    rw [ih (exec m e.toCall).1 t ht, hkeys]

theorem run_edits_results (edits : List Edit) :
    ∀ (m : Manager) (s : Entries), m.config.Profiles = some s →
      (∀ e ∈ edits, e.writeResult = none) →
      (results m (edits.map Edit.toCall)).map Result.succeeded =
        countedEdits s.keys.toFinset edits := by
  induction edits with
  | nil => intro m s _ _; rfl
  | cons e es ih =>
    intro m s hs hw
    obtain ⟨t, ht, hkeys, hres⟩ := exec_edit m e s hs
    have hwe : e.writeResult = none := hw e (List.mem_cons_self e es)
    simp only [List.map_cons, results, countedEdits]
    rw [ih (exec m e.toCall).1 t ht (fun x hx => hw x (List.mem_cons_of_mem e hx)), hkeys, hres]
    simp [hwe]

/-! ## The invariants in memory -/

theorem Memory.step_agree (mem : Memory) (a : Action) (h : mem.KeyNameAgree)
    (hu : ∀ p v, a = .assign p v → p ∈ mem.held → v.Name = (mem.heap p).Name) :
    (mem.step a).KeyNameAgree := by
  cases a with
  | add p =>
    simp only [Memory.step]
    split
    · exact h
    · cases hs : mem.Profiles with
      | none => simp only []; exact h
      | some s =>
        intro e he
        simp only [Memory.entries, AList.insert_entries, List.mem_cons] at he
        rcases he with he | he
        · rw [he]
        · have hmem : e ∈ mem.entries := by
            simp only [Memory.entries, hs]
            exact (List.kerase_sublist _ s.entries).subset he
          exact h e hmem
  | delete name seed =>
    simp only [Memory.step]
    cases hs : mem.Profiles with
    | none => simp only []; exact h
    | some s =>
      simp only []
      cases s.lookup name with
      | none => simp only []; exact h
      | some q =>
        intro e he
        simp only [Memory.entries, AList.erase] at he
        have hmem : e ∈ mem.entries := by
          simp only [Memory.entries, hs]
          exact (List.kerase_sublist _ s.entries).subset he
        exact h e hmem
  | setDefault name =>
    simp only [Memory.step]
    cases mem.lookup name with
    | none => exact h
    | some q => exact h
  | assign p v =>
    intro e he
    have he2 : e ∈ mem.entries := he
    by_cases heq : e.2 = p
    · have hheld : p ∈ mem.held := by
        rw [← heq]
        exact List.mem_map_of_mem (fun e => e.2) he2
      have hname := hu p v rfl hheld
      simp only [Memory.step, heq, Function.update_same]
      rw [hname, ← heq]
      exact h e he2
    · simp only [Memory.step, Function.update_noteq heq]
      exact h e he2

theorem Memory.run_agree (as : List Action) :
    ∀ mem : Memory, mem.KeyNameAgree → mem.namesKept as = true →
      (mem.run as).KeyNameAgree := by
  induction as with
  | nil => intro mem h _; exact h
  | cons a as ih =>
    intro mem h hu
    cases a with
    | assign p v =>
      simp only [Memory.namesKept, Bool.and_eq_true, decide_eq_true_eq] at hu
      exact ih _ (Memory.step_agree mem _ h (by
        intro p2 v2 heq
        cases heq
        exact hu.1)) hu.2
    | add p =>
      exact ih _ (Memory.step_agree mem _ h (by intro p2 v2 heq; cases heq)) hu
    | delete name seed =>
      exact ih _ (Memory.step_agree mem _ h (by intro p2 v2 heq; cases heq)) hu
    | setDefault name =>
      exact ih _ (Memory.step_agree mem _ h (by intro p2 v2 heq; cases heq)) hu

theorem Memory.step_empty_not_key (mem : Memory) (a : Action) (h : "" ∉ mem.keys) :
    "" ∉ (mem.step a).keys := by
  cases a with
  | add p =>
    simp only [Memory.step]
    split
    · exact h
    · next hname =>
      cases hs : mem.Profiles with
      | none => simp only []; rw [Memory.keys, hs]; simp
      | some s =>
        simp only [Memory.keys, hs] at h ⊢
        rw [← AList.mem_keys, AList.mem_insert]
        rintro (heq | hmem)
        · exact hname heq.symm
        · exact h hmem
  | delete name seed =>
    simp only [Memory.step]
    cases hs : mem.Profiles with
    | none => simp only []; rw [Memory.keys, hs]; simp
    | some s =>
      simp only []
      cases s.lookup name with
      | none => simp only []; exact h
      | some q =>
        simp only [Memory.keys, hs] at h ⊢
        rw [← AList.mem_keys, AList.mem_erase]
        rintro ⟨_, hmem⟩
        exact h hmem
  | setDefault name =>
    simp only [Memory.step]
    cases mem.lookup name with
    | none => exact h
    | some q => exact h
  | assign p v => exact h

theorem Memory.run_empty_not_key (as : List Action) :
    ∀ mem : Memory, "" ∉ mem.keys → "" ∉ (mem.run as).keys := by
  induction as with
  | nil => intro mem h; exact h
  | cons a as ih => intro mem h; exact ih _ (Memory.step_empty_not_key mem a h)

theorem Memory.lookup_iff_mem_pointers (mem : Memory) (k : String) (p : Addr) :
    mem.lookup k = some p ↔ Sigma.mk k p ∈ mem.entries := by
  cases hs : mem.Profiles with
  | none => simp [Memory.entries, Memory.lookup, hs]
  | some s =>
    simp only [Memory.entries, Memory.lookup, hs]
    rw [← AList.mem_lookup_iff, Option.mem_def]

theorem Memory.mem_keys_of_lookup (mem : Memory) (k : String) (p : Addr)
    (h : mem.lookup k = some p) : k ∈ mem.keys := by
  cases hs : mem.Profiles with
  | none => simp [Memory.lookup, hs] at h
  | some s =>
    simp only [Memory.lookup, hs] at h
    simp only [Memory.keys, hs]
    rw [← AList.mem_keys, ← AList.lookup_isSome, h]
    rfl

/-! ## The copying embedding is what the memory shows -/

theorem kerase_map_deref (heap : Addr → Profile) (k : String)
    (l : List (Sigma fun _ : String => Addr)) :
    (l.kerase k).map (fun e => (⟨e.1, heap e.2⟩ : Sigma fun _ : String => Profile)) =
      (l.map (fun e => (⟨e.1, heap e.2⟩ : Sigma fun _ : String => Profile))).kerase k := by
  induction l with
  | nil => rfl
  | cons e l ih =>
    by_cases h : k = e.1
    · subst h
      simp [List.kerase_cons_eq]
    · have h2 : k ≠ (⟨e.1, heap e.2⟩ : Sigma fun _ : String => Profile).1 := h
      rw [List.kerase_cons_ne h, List.map_cons, List.map_cons, List.kerase_cons_ne h2, ih]

theorem dlookup_map_deref (heap : Addr → Profile) (k : String)
    (l : List (Sigma fun _ : String => Addr)) :
    (l.map (fun e => (⟨e.1, heap e.2⟩ : Sigma fun _ : String => Profile))).dlookup k =
      (l.dlookup k).map heap := by
  induction l with
  | nil => rfl
  | cons e l ih =>
    obtain ⟨a, b⟩ := e
    by_cases h : k = a
    · subst h
      simp [List.dlookup_cons_eq]
    · have h1 : k ≠ (⟨a, b⟩ : Sigma fun _ : String => Addr).1 := h
      have h2 : k ≠ (⟨a, heap b⟩ : Sigma fun _ : String => Profile).1 := h
      rw [List.map_cons, List.dlookup_cons_ne _ _ h2, List.dlookup_cons_ne _ _ h1, ih]

/-- What a key finds in the Config a memory shows is the Profile its pointer
points to. -/
theorem Memory.view_lookup (mem : Memory) (k : String) :
    mem.view.Profiles.lookup k = (mem.lookup k).map mem.heap := by
  cases hs : mem.Profiles with
  | none => simp [Memory.view, Memory.lookup, ProfileMap.lookup, hs]
  | some s =>
    simp only [Memory.view, Memory.lookup, ProfileMap.lookup, hs]
    exact dlookup_map_deref mem.heap k s.entries

theorem Memory.view_keys (mem : Memory) : mem.view.Profiles.keys = mem.keys := by
  cases hs : mem.Profiles with
  | none => simp [Memory.view, Memory.keys, ProfileMap.keys, hs]
  | some s =>
    simp only [Memory.view, Memory.keys, ProfileMap.keys, hs]
    simp [AList.keys, List.keys, List.map_map, Function.comp_def]

/-- AddProfile on what the memory shows, with the Profile the pointer points
to, leaves what the memory shows after AddProfile with the pointer. -/
theorem Memory.view_step_add (mem : Memory) (p : Addr) (ws : List Config)
    (write : Option String) :
    (mem.step (.add p)).view =
      (AddProfile { config := mem.view, writes := ws } (mem.heap p) write).1.config := by
  by_cases hname : (mem.heap p).Name = ""
  · simp [Memory.step, AddProfile, hname]
  · cases hs : mem.Profiles with
    | none =>
      have hv : mem.view.Profiles = none := by simp [Memory.view, hs]
      rw [AddProfile_of_nil _ _ _ hname hv]
      simp [Memory.step, hname, hs]
    | some s =>
      have hv : mem.view.Profiles =
          some ⟨s.entries.map (fun e => ⟨e.1, mem.heap e.2⟩), by
            have h := s.nodupKeys
            rw [List.NodupKeys] at h ⊢
            simpa [List.keys, List.map_map, Function.comp_def] using h⟩ := by
        simp [Memory.view, hs]
      rw [(AddProfile_of_some _ _ write _ hname hv).2]
      have hent : ((s.insert (mem.heap p).Name p).entries.map
          (fun e => (⟨e.1, mem.heap e.2⟩ : Sigma fun _ : String => Profile))) =
          (AList.insert (mem.heap p).Name (mem.heap p)
            (⟨s.entries.map (fun e => ⟨e.1, mem.heap e.2⟩), by
              have h := s.nodupKeys
              rw [List.NodupKeys] at h ⊢
              simpa [List.keys, List.map_map, Function.comp_def] using h⟩ : Entries)).entries := by
        simp only [AList.insert_entries, List.map_cons, kerase_map_deref]
      have hlen : (s.insert (mem.heap p).Name p).entries.length =
          (AList.insert (mem.heap p).Name (mem.heap p)
            (⟨s.entries.map (fun e => ⟨e.1, mem.heap e.2⟩), by
              have h := s.nodupKeys
              rw [List.NodupKeys] at h ⊢
              simpa [List.keys, List.map_map, Function.comp_def] using h⟩ : Entries)).entries.length := by
        rw [← hent, List.length_map]
      simp only [Memory.step, hname, hs, Memory.view, if_false]
      rw [Config.mk.injEq]
      refine ⟨?_, ?_⟩
      · simp only [hlen]
      · exact congrArg some (AList.ext hent)

theorem Memory.view_step_setDefault (mem : Memory) (name : String) (ws : List Config)
    (write : Option String) :
    (mem.step (.setDefault name)).view =
      (SetDefault { config := mem.view, writes := ws } name write).1.config := by
  have hl := Memory.view_lookup mem name
  cases hm : mem.lookup name with
  | none =>
    rw [hm] at hl
    simp only [Memory.step, SetDefault, hm, hl, Option.map]
  | some q =>
    rw [hm] at hl
    simp only [Memory.step, SetDefault, hm, hl, Option.map, Save]
    rfl

theorem Memory.view_step_delete (mem : Memory) (name : String) (seed : Nat)
    (ws : List Config) (write : Option String) :
    (mem.step (.delete name seed)).view =
      (DeleteProfile { config := mem.view, writes := ws } name seed write).1.config := by
  have hl := Memory.view_lookup mem name
  cases hs : mem.Profiles with
  | none =>
    have hm : mem.lookup name = none := by simp [Memory.lookup, hs]
    rw [hm] at hl
    simp only [Memory.step, hs, DeleteProfile, hl, Option.map]
  | some s =>
    cases hl2 : s.lookup name with
    | none =>
      have hm : mem.lookup name = none := by simp [Memory.lookup, hs, hl2]
      rw [hm] at hl
      simp only [Memory.step, hs, hl2, DeleteProfile, hl, Option.map]
    | some q =>
      have hm : mem.lookup name = some q := by simp [Memory.lookup, hs, hl2]
      rw [hm] at hl
      have hk : name ∈ ({ config := mem.view, writes := ws } : Manager).config.Profiles.keys :=
        (ProfileMap.mem_keys_iff_lookup _ _).mpr ⟨_, hl⟩
      rcases DeleteProfile_config { config := mem.view, writes := ws } name seed write with
        ⟨habs, _⟩ | ⟨_, hc⟩
      · exact absurd hk habs
      · rw [hc]
        have hprof : ({ mem with Profiles := some (s.erase name) } : Memory).view.Profiles =
            mem.view.Profiles.delete name := by
          simp only [Memory.view, hs, ProfileMap.delete]
          exact congrArg some (AList.ext (kerase_map_deref mem.heap name s.entries))
        have hkeys : (mem.view.Profiles.delete name).keys = (s.erase name).keys := by
          rw [← hprof]
          exact Memory.view_keys { mem with Profiles := some (s.erase name) }
        simp only [Memory.step, hs, hl2]
        rw [Config.mk.injEq]
        refine ⟨?_, hprof⟩
        dsimp only
        rw [hkeys]
        dsimp only [Memory.view]
        split
        · cases rangeOrder (s.erase name).keys seed <;> rfl
        · rfl

/-! ## The claims -/

/-- C1. Default validity is an invariant: after any sequence of AddProfile,
DeleteProfile and SetDefault calls on the fresh manager, whatever each call
returns and whether or not its write to the file succeeds, and whatever order
the range loops take, defaultProfile is "" or a key present in profiles. -/
theorem default_valid_reachable (calls : List Call) :
    (run fresh calls).config.DefaultProfile = "" ∨
      (run fresh calls).config.DefaultProfile ∈ (run fresh calls).config.Profiles.keys :=
  run_defaultValid calls fresh (Or.inl rfl)

/-- C2. On the fresh manager a successful AddProfile(p1) makes p1.name the
default, and a second successful AddProfile(p2), whether or not p2 has the
name of p1, leaves p1.name the default. -/
theorem first_add_becomes_default (p1 p2 : Profile) (w1 w2 : Option String)
    (h1 : (AddProfile fresh p1 w1).2 = .ok)
    (h2 : (AddProfile (AddProfile fresh p1 w1).1 p2 w2).2 = .ok) :
    p2.Name ≠ "" ∧
    GetDefault (AddProfile fresh p1 w1).1 = p1.Name ∧
    GetDefault (AddProfile (AddProfile fresh p1 w1).1 p2 w2).1 = p1.Name := by
  have hn1 : p1.Name ≠ "" := by
    intro h; simp [AddProfile, h] at h1
  have hn2 : p2.Name ≠ "" := by
    intro h; simp [AddProfile, h] at h2
  have hc1 : (AddProfile fresh p1 w1).1.config =
      { DefaultProfile := p1.Name, Profiles := some (AList.insert p1.Name p1 ∅) } := by
    simp [AddProfile, hn1, fresh, ProfileMap.store, ProfileMap.len, Save]
  refine ⟨hn2, by rw [GetDefault, hc1], ?_⟩
  rcases AddProfile_config (AddProfile fresh p1 w1).1 p2 w2 with hc | ⟨s, hs, _, hc⟩
  · rw [GetDefault, hc, hc1]
  · rw [GetDefault, hc]
    rw [hc1] at hs
    simp only [Option.some.injEq] at hs
    subst hs
    simp only [hc1]
    split
    · next hlen =>
      by_cases heq : p2.Name = p1.Name
      · exact heq
      · exfalso
        have hne : p2.Name ≠ (Sigma.mk p1.Name p1 : Sigma fun _ : String => Profile).1 := heq
        simp [AList.insert_entries, List.kerase_cons_ne hne] at hlen
    · rfl

/-- Witness of C2: "work" then "home", both written to the file. -/
theorem first_add_becomes_default_witness :
    home.Name ≠ "" ∧
    GetDefault (AddProfile fresh work none).1 = work.Name ∧
    GetDefault (AddProfile (AddProfile fresh work none).1 home none).1 = work.Name :=
  first_add_becomes_default work home none none (by decide) (by decide)

/-- C3. AddProfile of a profile whose name is empty returns the validation
error "profile name is required" and leaves the manager as it was: the
mapping, the default, and the record of writes to the file (no Save). -/
theorem add_nameless_rejected (m : Manager) (profile : Profile) (write : Option String)
    (h : profile.Name = "") :
    (AddProfile m profile write).2 = .err (.errorf "profile name is required") ∧
    (AddProfile m profile write).1.config.Profiles = m.config.Profiles ∧
    (AddProfile m profile write).1.config.DefaultProfile = m.config.DefaultProfile ∧
    (AddProfile m profile write).1.writes = m.writes := by
  simp [AddProfile, h]

/-- Witness of C3: a nameless profile offered to the manager holding "work"
and "home". -/
theorem add_nameless_rejected_witness :
    (AddProfile workHome nameless none).2 = .err (.errorf "profile name is required") ∧
    (AddProfile workHome nameless none).1.config.Profiles = workHome.config.Profiles ∧
    (AddProfile workHome nameless none).1.config.DefaultProfile =
      workHome.config.DefaultProfile ∧
    (AddProfile workHome nameless none).1.writes = workHome.writes :=
  add_nameless_rejected workHome nameless none (by decide)

/-- C4. In a Config that satisfies the invariants, whose default is d and
whose mapping holds d and at least one other profile, DeleteProfile(d) leaves
as default a key that is present in the mapping after the deletion: one of the
other keys of the old mapping, never "" and never d. This holds for every
order of the range loop and whether or not the write to the file succeeds. -/
theorem delete_default_reassigns (m : Manager) (d : String) (seed : Nat)
    (write : Option String) (hinv : Invariants m.config)
    (hd : m.config.DefaultProfile = d) (hmem : d ∈ m.config.Profiles.keys)
    (hother : ∃ k ∈ m.config.Profiles.keys, k ≠ d) :
    (DeleteProfile m d seed write).1.config.DefaultProfile ∈
      (DeleteProfile m d seed write).1.config.Profiles.keys ∧
    (DeleteProfile m d seed write).1.config.DefaultProfile ∈ m.config.Profiles.keys ∧
    (DeleteProfile m d seed write).1.config.DefaultProfile ≠ "" ∧
    (DeleteProfile m d seed write).1.config.DefaultProfile ≠ d := by
  rcases DeleteProfile_config m d seed write with ⟨habs, _⟩ | ⟨_, hc⟩
  · exact absurd hmem habs
  · obtain ⟨k, hk, hkd⟩ := hother
    have hne : (m.config.Profiles.delete d).keys ≠ [] :=
      List.ne_nil_of_mem ((ProfileMap.mem_keys_delete _ _ _).mpr ⟨hkd, hk⟩)
    have hhead := rangeOrder_headD_mem _ seed hne
    have hold := (ProfileMap.mem_keys_delete _ _ _).mp hhead
    rw [hc]
    simp only [hd, if_true]
    exact ⟨hhead, hold.2, hinv.key_ne_empty hold.2, hold.1⟩

/-- Witness of C4: deleting the default "work" from the manager holding
"work" and "home". -/
theorem delete_default_reassigns_witness :
    (DeleteProfile workHome "work" 0 none).1.config.DefaultProfile ∈
      (DeleteProfile workHome "work" 0 none).1.config.Profiles.keys ∧
    (DeleteProfile workHome "work" 0 none).1.config.DefaultProfile ∈
      workHome.config.Profiles.keys ∧
    (DeleteProfile workHome "work" 0 none).1.config.DefaultProfile ≠ "" ∧
    (DeleteProfile workHome "work" 0 none).1.config.DefaultProfile ≠ "work" :=
  delete_default_reassigns workHome "work" 0 none
    ⟨by decide, by decide, by decide⟩ (by decide) (by decide) ⟨"home", by decide, by decide⟩

/-- C5. In a Config that satisfies the invariants and whose mapping holds
exactly one profile, named n, DeleteProfile(n) leaves the mapping empty and
the default "", whether or not the write to the file succeeds. -/
theorem delete_last_clears_default (m : Manager) (n : String) (seed : Nat)
    (write : Option String) (hinv : Invariants m.config)
    (hkeys : m.config.Profiles.keys = [n]) :
    (DeleteProfile m n seed write).1.config.Profiles = some ∅ ∧
    (DeleteProfile m n seed write).1.config.DefaultProfile = "" := by
  have hmem : n ∈ m.config.Profiles.keys := by rw [hkeys]; exact List.mem_singleton_self n
  rcases DeleteProfile_config m n seed write with ⟨habs, _⟩ | ⟨_, hc⟩
  · exact absurd hmem habs
  · have hnil : (m.config.Profiles.delete n).keys = [] := by
      apply List.eq_nil_iff_forall_not_mem.mpr
      intro a ha
      have := (ProfileMap.mem_keys_delete _ _ _).mp ha
      rw [hkeys, List.mem_singleton] at this
      exact this.1 this.2
    rw [hc]
    refine ⟨?_, ?_⟩
    · cases hs : m.config.Profiles with
      | none => rw [hs] at hkeys; simp [ProfileMap.keys] at hkeys
      | some s =>
        rw [hs] at hnil
        simp only [ProfileMap.delete, ProfileMap.keys] at hnil ⊢
        have hent : (AList.erase n s).entries = [] := by
          have : (AList.erase n s).entries.map Sigma.fst = [] := hnil
          exact List.map_eq_nil_iff.mp this
        exact congrArg some (AList.ext hent)
    · simp only
      split
      · rw [hnil]; rfl
      · next hne =>
        rcases hinv.defaultValid with h | h
        · exact h
        · rw [hkeys, List.mem_singleton] at h
          exact absurd h hne

/-- Witness of C5: deleting "work" from the manager that holds only "work". -/
theorem delete_last_clears_default_witness :
    (DeleteProfile workOnly "work" 0 none).1.config.Profiles = some ∅ ∧
    (DeleteProfile workOnly "work" 0 none).1.config.DefaultProfile = "" :=
  delete_last_clears_default workOnly "work" 0 none
    ⟨by decide, by decide, by decide⟩ (by decide)

/-- C6. In a Config that satisfies the invariants: when the default is not
empty, GetProfile("") returns the profile stored under the default; when the
default is empty, GetProfile("") fails with "no profile specified and no
default profile set". -/
theorem get_empty_name_resolves_default (m : Manager) (hinv : Invariants m.config) :
    (m.config.DefaultProfile ≠ "" →
      ∃ p, m.config.Profiles.lookup m.config.DefaultProfile = some p ∧
        GetProfile m "" = .ok p) ∧
    (m.config.DefaultProfile = "" →
      GetProfile m "" =
        .error (.errorf "no profile specified and no default profile set")) := by
  refine ⟨?_, ?_⟩
  · intro hne
    rcases hinv.defaultValid with h | h
    · exact absurd h hne
    · obtain ⟨p, hp⟩ := (ProfileMap.mem_keys_iff_lookup _ _).mp h
      exact ⟨p, hp, by simp [GetProfile, hne, hp]⟩
  · intro he
    simp [GetProfile, he]

/-- Witness of C6: the manager holding "work" and "home" has the default
"work", and GetProfile("") returns the profile "work". -/
theorem get_empty_name_resolves_default_witness :
    (workHome.config.DefaultProfile ≠ "" →
      ∃ p, workHome.config.Profiles.lookup workHome.config.DefaultProfile = some p ∧
        GetProfile workHome "" = .ok p) ∧
    (workHome.config.DefaultProfile = "" →
      GetProfile workHome "" =
        .error (.errorf "no profile specified and no default profile set")) :=
  get_empty_name_resolves_default workHome ⟨by decide, by decide, by decide⟩

/-- Counterexample to C7 as stated: "" is not a key, yet GetProfile("") does
not fail with the not-found error. With no default it fails with the error
"no profile specified and no default profile set"; with the default "work" it
returns the profile "work". -/
theorem get_missing_name_counterexample :
    ("" ∉ fresh.config.Profiles.keys ∧
      GetProfile fresh "" ≠ .error (.errorf ("profile '" ++ "" ++ "' not found")) ∧
      GetProfile fresh "" =
        .error (.errorf "no profile specified and no default profile set")) ∧
    ("" ∉ workOnly.config.Profiles.keys ∧
      GetProfile workOnly "" ≠ .error (.errorf ("profile '" ++ "" ++ "' not found")) ∧
      GetProfile workOnly "" = .ok work) := by
  refine ⟨⟨by decide, ?_, rfl⟩, ⟨by decide, ?_, rfl⟩⟩
  · intro h
    have h1 : GetProfile fresh "" =
        .error (.errorf "no profile specified and no default profile set") := rfl
    rw [h1] at h
    injection h with h
    injection h with h
    exact absurd h (by decide)
  · intro h
    have h1 : GetProfile workOnly "" = .ok work := rfl
    rw [h1] at h
    cases h

/-- C7, amended. For every Config and every non-empty name that is not a key
of the mapping, GetProfile(name) fails with the not-found error
"profile '<name>' not found", whatever the default is. -/
theorem get_missing_name_not_found (m : Manager) (name : String) (hne : name ≠ "")
    (hk : name ∉ m.config.Profiles.keys) :
    GetProfile m name = .error (.errorf ("profile '" ++ name ++ "' not found")) := by
  have hl := (ProfileMap.lookup_eq_none_iff _ _).mpr hk
  simp [GetProfile, hne, hl, notFound]

/-- Witness of C7, amended: "ghost" asked of the manager that holds only
"work". -/
theorem get_missing_name_not_found_witness :
    GetProfile workOnly "ghost" = .error (.errorf ("profile '" ++ "ghost" ++ "' not found")) :=
  get_missing_name_not_found workOnly "ghost" (by decide) (by decide)

/-- C8. SetDefault(name) fails with "profile '<name>' not found" exactly when
name is not a key of the mapping, and then the manager is untouched (default,
mapping and record of writes); when name is a key and the write to the file
succeeds, it returns nil with the default equal to name and the mapping
unchanged. -/
theorem set_default_checks_name (m : Manager) (name : String) (write : Option String) :
    ((SetDefault m name write).2 = .err (.errorf ("profile '" ++ name ++ "' not found")) ↔
      name ∉ m.config.Profiles.keys) ∧
    (name ∉ m.config.Profiles.keys → (SetDefault m name write).1 = m) ∧
    (name ∈ m.config.Profiles.keys → write = none →
      (SetDefault m name write).2 = .ok ∧
      (SetDefault m name write).1.config.DefaultProfile = name ∧
      (SetDefault m name write).1.config.Profiles = m.config.Profiles) := by
  cases hl : m.config.Profiles.lookup name with
  | none =>
    have hk := (ProfileMap.lookup_eq_none_iff _ _).mp hl
    refine ⟨?_, ?_, ?_⟩
    · simp [SetDefault, hl, hk, notFound]
    · intro _; simp [SetDefault, hl]
    · intro h; exact absurd h hk
  | some p =>
    have hk := (ProfileMap.mem_keys_iff_lookup _ _).mpr ⟨p, hl⟩
    refine ⟨?_, ?_, ?_⟩
    · cases write <;> simp [SetDefault, hl, hk, Save]
    · intro h; exact absurd hk h
    · intro _ hw; subst hw; simp [SetDefault, hl, Save]

/-- Witness of C8: on the manager that holds only "work", SetDefault("ghost")
fails with "profile 'ghost' not found" and leaves the default "work". -/
theorem set_default_checks_name_witness :
    (SetDefault workOnly "ghost" none).2 =
      .err (.errorf ("profile '" ++ "ghost" ++ "' not found")) ∧
    GetDefault (SetDefault workOnly "ghost" none).1 = "work" :=
  ⟨(set_default_checks_name workOnly "ghost" none).1.mpr (by decide),
   by rw [(set_default_checks_name workOnly "ghost" none).2.1 (by decide)]; decide⟩

/-- Counterexample to C9 as stated: AddProfile("work") on the fresh manager
with the write to the file failing is not a successful call, it returns the
error of the write; replaying the successful calls gives no name, yet
ListProfiles returns "work". -/
theorem list_profiles_counterexample :
    (exec fresh (.add work (some "disk full"))).2 = .err (.os "disk full") ∧
    replaySuccessful fresh ∅ [.add work (some "disk full")] = ∅ ∧
    ListProfiles (run fresh [.add work (some "disk full")]) 0 = ["work"] ∧
    (ListProfiles (run fresh [.add work (some "disk full")]) 0).toFinset ≠
      replaySuccessful fresh ∅ [.add work (some "disk full")] := by
  decide

/-- C9, amended. For every sequence of AddProfile and DeleteProfile calls on
the fresh manager, ListProfiles returns, without duplicates and up to order,
the names obtained by replaying in call order every AddProfile of a profile
with a non-empty name as an insertion and every DeleteProfile of a name then
present as a removal, whether the Save of the call succeeded or failed. When
every Save succeeds, the calls replayed are exactly the successful calls. -/
theorem list_profiles_replays_edits (edits : List Edit) (seed : Nat) :
    (ListProfiles (run fresh (edits.map Edit.toCall)) seed).Nodup ∧
    (ListProfiles (run fresh (edits.map Edit.toCall)) seed).toFinset = replayEdits ∅ edits ∧
    ((∀ e ∈ edits, e.writeResult = none) →
      (results fresh (edits.map Edit.toCall)).map Result.succeeded = countedEdits ∅ edits) := by
  have hperm := ListProfiles_perm (run fresh (edits.map Edit.toCall)) seed
  refine ⟨hperm.nodup_iff.mpr (ProfileMap.keys_nodup _), ?_, ?_⟩
  · rw [List.toFinset_eq_of_perm _ _ hperm]
    exact run_edits_keys edits fresh ∅ rfl
  · exact run_edits_results edits fresh ∅ rfl

/-- Witness of C9, amended: "work" added with the write failing, a nameless
profile refused, "home" added, "ghost" not found, "work" deleted. The names
are those of the replay, "home" alone. -/
theorem list_profiles_replays_edits_witness :
    replayEdits ∅ [.add work (some "disk full"), .add nameless none, .add home none,
      .delete "ghost" 0 none, .delete "work" 0 none] = {"home"} ∧
    (ListProfiles (run fresh ([Edit.add work (some "disk full"), .add nameless none,
      .add home none, .delete "ghost" 0 none, .delete "work" 0 none].map Edit.toCall))
      0).toFinset = {"home"} ∧
    (results fresh ([Edit.add work none, .add nameless none, .add home none,
      .delete "ghost" 0 none, .delete "work" 0 none].map Edit.toCall)).map Result.succeeded =
      [true, false, true, false, true] :=
  ⟨by decide,
   by rw [(list_profiles_replays_edits [.add work (some "disk full"), .add nameless none,
      .add home none, .delete "ghost" 0 none, .delete "work" 0 none] 0).2.1]; decide,
   by rw [(list_profiles_replays_edits [.add work none, .add nameless none, .add home none,
      .delete "ghost" 0 none, .delete "work" 0 none] 0).2.2 (by decide)]; decide⟩

/-- Counterexample to C10 as stated: the caller sets up a Profile named
"work" and calls AddProfile with it, renames that Profile "office" and calls
AddProfile with it again. The map stores the pointer it was given, so the key
"work" now holds a Profile whose name is "office". -/
theorem key_name_agree_counterexample :
    (Memory.fresh.run [.assign 0 work, .add 0, .assign 0 { work with Name := "office" },
      .add 0]).lookup "work" = some 0 ∧
    ((Memory.fresh.run [.assign 0 work, .add 0, .assign 0 { work with Name := "office" },
      .add 0]).heap 0).Name = "office" := by
  decide

/-- C10, amended. Key/name agreement holds as long as the caller keeps the
names of the Profiles that the map holds: after any sequence of AddProfile,
DeleteProfile and SetDefault calls on the fresh manager, with assignments of
the caller to its Profiles in between of which none changes the name field of
a Profile whose pointer is in the map at that time, every key of the mapping
equals the name field of the Profile stored under it. -/
theorem key_name_agree_names_kept (as : List Action)
    (hu : Memory.fresh.namesKept as = true) (k : String) (p : Addr)
    (hl : (Memory.fresh.run as).lookup k = some p) :
    k = ((Memory.fresh.run as).heap p).Name := by
  have hagree : (Memory.fresh.run as).KeyNameAgree :=
    Memory.run_agree as Memory.fresh
      (by intro e he; simp [Memory.fresh, Memory.entries] at he) hu
  exact hagree _ ((Memory.lookup_iff_mem_pointers _ _ _).mp hl)

/-- Witness of C10, amended: the caller sets up "work" and adds it, changes
its region, then sets up "home" in another Profile and adds that. -/
theorem key_name_agree_names_kept_witness :
    "home" = ((Memory.fresh.run [.assign 0 work, .add 0,
      .assign 0 { work with Region := "eu-west-1" }, .assign 1 home, .add 1]).heap 1).Name :=
  key_name_agree_names_kept [.assign 0 work, .add 0,
    .assign 0 { work with Region := "eu-west-1" }, .assign 1 home, .add 1] (by decide)
    "home" 1 (by decide)

/-- C11. AddProfile is an upsert: after a successful AddProfile(p) with a
non-empty name, GetProfile(p.name) returns exactly p, all seven fields,
whatever was stored under that name before, and the entry under every other
name is the one that was there. -/
theorem add_is_upsert (m : Manager) (profile : Profile) (write : Option String)
    (hname : profile.Name ≠ "") (hok : (AddProfile m profile write).2 = .ok) :
    GetProfile (AddProfile m profile write).1 profile.Name = .ok profile ∧
    ∀ k, k ≠ profile.Name →
      (AddProfile m profile write).1.config.Profiles.lookup k = m.config.Profiles.lookup k := by
  cases hs : m.config.Profiles with
  | none =>
    rw [AddProfile_of_nil m profile write hname hs] at hok
    cases hok
  | some s =>
    have hc := (AddProfile_of_some m profile write s hname hs).2
    refine ⟨?_, ?_⟩
    · unfold GetProfile
      simp only [if_neg hname]
      rw [hc]
      simp [ProfileMap.lookup]
    · intro k hk
      rw [hc]
      simp only [ProfileMap.lookup]
      exact AList.lookup_insert_ne hk

/-- Witness of C11: a changed profile "work" put over the stored one in the
manager holding "work" and "home". -/
theorem add_is_upsert_witness :
    GetProfile (AddProfile workHome { work with Region := "eu-west-1" } none).1 "work" =
      .ok { work with Region := "eu-west-1" } ∧
    ∀ k, k ≠ "work" →
      (AddProfile workHome { work with Region := "eu-west-1" } none).1.config.Profiles.lookup k =
        workHome.config.Profiles.lookup k :=
  add_is_upsert workHome { work with Region := "eu-west-1" } none (by decide) (by decide)

/-- C14. Mutations are not rolled back when Save fails. For AddProfile with a
non-empty name (on an allocated map: on the nil map it panics before Save),
for DeleteProfile of an existing name and for SetDefault of an existing name:
when the write to the file fails with e the operation returns that error, and
the Config it leaves in memory is the Config it leaves when the write
succeeds; that Save was called with it. -/
theorem save_failure_keeps_mutation (m : Manager) (e : String) :
    (∀ profile : Profile, profile.Name ≠ "" → m.config.Profiles ≠ none →
      (AddProfile m profile (some e)).2 = .err (.os e) ∧
      (AddProfile m profile none).2 = .ok ∧
      (AddProfile m profile (some e)).1.config = (AddProfile m profile none).1.config ∧
      (AddProfile m profile (some e)).1.writes =
        (AddProfile m profile none).1.config :: m.writes) ∧
    (∀ (name : String) (seed : Nat), name ∈ m.config.Profiles.keys →
      (DeleteProfile m name seed (some e)).2 = .err (.os e) ∧
      (DeleteProfile m name seed none).2 = .ok ∧
      (DeleteProfile m name seed (some e)).1.config =
        (DeleteProfile m name seed none).1.config ∧
      (DeleteProfile m name seed (some e)).1.writes =
        (DeleteProfile m name seed none).1.config :: m.writes) ∧
    (∀ name : String, name ∈ m.config.Profiles.keys →
      (SetDefault m name (some e)).2 = .err (.os e) ∧
      (SetDefault m name none).2 = .ok ∧
      (SetDefault m name (some e)).1.config = (SetDefault m name none).1.config ∧
      (SetDefault m name (some e)).1.writes = (SetDefault m name none).1.config :: m.writes) := by
  refine ⟨?_, ?_, ?_⟩
  · intro profile hname hmap
    cases hs : m.config.Profiles with
    | none => exact absurd hs hmap
    | some s =>
      have h1 := AddProfile_of_some m profile (some e) s hname hs
      have h2 := AddProfile_of_some m profile none s hname hs
      refine ⟨h1.1, h2.1, h1.2.trans h2.2.symm, ?_⟩
      rw [h2.2]
      simp only [AddProfile, hname, hs, ProfileMap.store, ProfileMap.len, Save, if_false]
      split <;> rfl
  · intro name seed hk
    obtain ⟨p, hp⟩ := (ProfileMap.mem_keys_iff_lookup _ _).mp hk
    refine ⟨DeleteProfile_result_of_mem m name seed (some e) hk,
      DeleteProfile_result_of_mem m name seed none hk, ?_, ?_⟩ <;>
    simp only [DeleteProfile, hp, Save]
  · intro name hk
    obtain ⟨p, hp⟩ := (ProfileMap.mem_keys_iff_lookup _ _).mp hk
    refine ⟨SetDefault_result_of_mem m name (some e) hk,
      SetDefault_result_of_mem m name none hk, ?_, ?_⟩ <;>
    simp only [SetDefault, hp, Save]

/-- Witness of C14: AddProfile("home") on the manager holding "work", with the
write failing, returns the error of the write and "home" is in memory. -/
theorem save_failure_keeps_mutation_witness :
    (AddProfile workOnly home (some "disk full")).2 = .err (.os "disk full") ∧
    (AddProfile workOnly home none).2 = .ok ∧
    (AddProfile workOnly home (some "disk full")).1.config =
      (AddProfile workOnly home none).1.config ∧
    (AddProfile workOnly home (some "disk full")).1.writes =
      (AddProfile workOnly home none).1.config :: workOnly.writes :=
  (save_failure_keeps_mutation workOnly "disk full").1 home (by decide) (by decide)

/-- C15. DeleteProfile(name) fails with "profile '<name>' not found" exactly
when name is not a key of the mapping, and then the manager is untouched:
the mapping, the default, and the record of writes to the file (no Save). -/
theorem delete_checks_name (m : Manager) (name : String) (seed : Nat)
    (write : Option String) :
    ((DeleteProfile m name seed write).2 =
        .err (.errorf ("profile '" ++ name ++ "' not found")) ↔
      name ∉ m.config.Profiles.keys) ∧
    (name ∉ m.config.Profiles.keys →
      (DeleteProfile m name seed write).1.config.Profiles = m.config.Profiles ∧
      (DeleteProfile m name seed write).1.config.DefaultProfile = m.config.DefaultProfile ∧
      (DeleteProfile m name seed write).1.writes = m.writes) := by
  by_cases hk : name ∈ m.config.Profiles.keys
  · refine ⟨?_, fun h => absurd hk h⟩
    rw [DeleteProfile_result_of_mem m name seed write hk]
    cases write <;> simp [saveResult, hk]
  · rw [DeleteProfile_of_not_mem m name seed write hk]
    simp [hk, notFound]

/-- Witness of C15: DeleteProfile("ghost") on the manager holding "work" and
"home". -/
theorem delete_checks_name_witness :
    (DeleteProfile workHome "ghost" 0 none).2 =
      .err (.errorf ("profile '" ++ "ghost" ++ "' not found")) ∧
    (DeleteProfile workHome "ghost" 0 none).1.config.Profiles = workHome.config.Profiles ∧
    (DeleteProfile workHome "ghost" 0 none).1.config.DefaultProfile =
      workHome.config.DefaultProfile ∧
    (DeleteProfile workHome "ghost" 0 none).1.writes = workHome.writes :=
  ⟨(delete_checks_name workHome "ghost" 0 none).1.mpr (by decide),
   (delete_checks_name workHome "ghost" 0 none).2 (by decide)⟩

/-- Counterexample to C16 as stated: the caller sets up a Profile named
"work" and calls AddProfile with it, then empties the name of that Profile and
calls SetDefault("work"). The map stores the pointer it was given, so the
Profile stored under "work" now has an empty name. -/
theorem names_nonempty_counterexample :
    (Memory.fresh.run [.assign 0 work, .add 0, .assign 0 { work with Name := "" },
      .setDefault "work"]).lookup "work" = some 0 ∧
    ((Memory.fresh.run [.assign 0 work, .add 0, .assign 0 { work with Name := "" },
      .setDefault "work"]).heap 0).Name = "" := by
  decide

/-- C16, amended. After any sequence of AddProfile, DeleteProfile and
SetDefault calls on the fresh manager, with any assignments of the caller to
its Profiles in between, "" is not a key of the mapping; and when none of the
assignments changes the name field of a Profile whose pointer is in the map
at that time, no stored Profile has an empty name. -/
theorem empty_name_never_key (as : List Action) :
    "" ∉ (Memory.fresh.run as).keys ∧
    (Memory.fresh.namesKept as = true →
      ∀ k p, (Memory.fresh.run as).lookup k = some p →
        ((Memory.fresh.run as).heap p).Name ≠ "") := by
  have hkey : "" ∉ (Memory.fresh.run as).keys :=
    Memory.run_empty_not_key as Memory.fresh (by simp [Memory.fresh, Memory.keys])
  refine ⟨hkey, ?_⟩
  intro hu k p hl
  have hagree : (Memory.fresh.run as).KeyNameAgree :=
    Memory.run_agree as Memory.fresh
      (by intro e he; simp [Memory.fresh, Memory.entries] at he) hu
  have hk := hagree _ ((Memory.lookup_iff_mem_pointers _ _ _).mp hl)
  simp only at hk
  rw [← hk]
  intro hempty
  apply hkey
  rw [← hempty]
  exact Memory.mem_keys_of_lookup _ k p hl

/-- Witness of C16, amended: the caller sets up "work" and adds it, then sets
up "home" in another Profile and adds that; the Profile under "home" has a
name. -/
theorem empty_name_never_key_witness :
    "" ∉ (Memory.fresh.run [.assign 0 work, .add 0, .assign 1 home, .add 1]).keys ∧
    ((Memory.fresh.run [.assign 0 work, .add 0, .assign 1 home, .add 1]).heap 1).Name ≠ "" :=
  ⟨(empty_name_never_key [.assign 0 work, .add 0, .assign 1 home, .add 1]).1,
   (empty_name_never_key [.assign 0 work, .add 0, .assign 1 home, .add 1]).2 (by decide)
     "home" 1 (by decide)⟩

/-- C18. After any sequence of AddProfile, DeleteProfile and SetDefault calls
on the fresh manager, the default is "" if and only if the mapping is empty,
and GetProfile("") succeeds if and only if the mapping holds a profile. -/
theorem default_empty_iff_no_profile (calls : List Call) :
    ((run fresh calls).config.DefaultProfile = "" ↔
      (run fresh calls).config.Profiles.keys = []) ∧
    ((∃ p, GetProfile (run fresh calls) "" = .ok p) ↔
      (run fresh calls).config.Profiles.keys ≠ []) := by
  have hinv := run_fresh_invariants calls
  have hset := run_defaultSet calls fresh (Or.inl ⟨rfl, rfl⟩)
  have hiff : (run fresh calls).config.DefaultProfile = "" ↔
      (run fresh calls).config.Profiles.keys = [] := by
    constructor
    · intro hd
      rcases hset with ⟨hnil, _⟩ | hmem
      · exact hnil
      · exact absurd hd (hinv.key_ne_empty hmem)
    · intro hnil
      rcases hset with ⟨_, hd⟩ | hmem
      · exact hd
      · rw [hnil] at hmem; exact absurd hmem (List.not_mem_nil _)
  refine ⟨hiff, ?_⟩
  constructor
  · rintro ⟨p, hp⟩ hnil
    have hd := hiff.mpr hnil
    simp [GetProfile, hd] at hp
  · intro hne
    have hd : (run fresh calls).config.DefaultProfile ≠ "" := fun h => hne (hiff.mp h)
    rcases hset with ⟨hnil, _⟩ | hmem
    · exact absurd hnil hne
    · obtain ⟨p, hp⟩ := (ProfileMap.mem_keys_iff_lookup _ _).mp hmem
      exact ⟨p, by simp [GetProfile, hd, hp]⟩

/-- C19. DeleteProfile(n) of a key n removes exactly the entry n: the entry
under every other name is the one that was there, and when n was not the
default the default is unchanged. This holds when the call is successful and
also when its write to the file fails. -/
theorem delete_removes_only_entry (m : Manager) (n : String) (seed : Nat)
    (write : Option String) (hk : n ∈ m.config.Profiles.keys) :
    (DeleteProfile m n seed write).1.config.Profiles.lookup n = none ∧
    (∀ k, k ≠ n →
      (DeleteProfile m n seed write).1.config.Profiles.lookup k =
        m.config.Profiles.lookup k) ∧
    (m.config.DefaultProfile ≠ n →
      (DeleteProfile m n seed write).1.config.DefaultProfile = m.config.DefaultProfile) := by
  rcases DeleteProfile_config m n seed write with ⟨habs, _⟩ | ⟨_, hc⟩
  · exact absurd hk habs
  · rw [hc]
    refine ⟨?_, ?_, ?_⟩
    · simp [ProfileMap.lookup_delete]
    · intro k hkn
      simp [ProfileMap.lookup_delete, hkn]
    · intro hd
      simp [hd]

/-- Witness of C19: deleting "home", which is not the default, from the
manager holding "work" and "home". -/
theorem delete_removes_only_entry_witness :
    (DeleteProfile workHome "home" 0 none).1.config.Profiles.lookup "home" = none ∧
    (∀ k, k ≠ "home" →
      (DeleteProfile workHome "home" 0 none).1.config.Profiles.lookup k =
        workHome.config.Profiles.lookup k) ∧
    (workHome.config.DefaultProfile ≠ "home" →
      (DeleteProfile workHome "home" 0 none).1.config.DefaultProfile =
        workHome.config.DefaultProfile) :=
  delete_removes_only_entry workHome "home" 0 none (by decide)

/-- C17. The scenario on the fresh manager with every write succeeding, for
every order of the range loops: after AddProfile(work) the default is "work";
after AddProfile(home) it is still "work" and ListProfiles is "work" and
"home" in some order; after DeleteProfile("work") the default is "home";
after DeleteProfile("home") the default is "" and ListProfiles is empty; then
GetProfile("") fails with "no profile specified and no default profile set".
Every one of the four calls returns nil. -/
theorem scenario_trace (seed1 seed2 seed3 seed4 : Nat) :
    (AddProfile fresh work none).2 = .ok ∧
    GetDefault (run fresh [.add work none]) = "work" ∧
    (AddProfile (run fresh [.add work none]) home none).2 = .ok ∧
    GetDefault (run fresh [.add work none, .add home none]) = "work" ∧
    (ListProfiles (run fresh [.add work none, .add home none]) seed1).Perm ["work", "home"] ∧
    (DeleteProfile (run fresh [.add work none, .add home none]) "work" seed2 none).2 = .ok ∧
    GetDefault (run fresh [.add work none, .add home none, .delete "work" seed2 none]) =
      "home" ∧
    (DeleteProfile (run fresh [.add work none, .add home none, .delete "work" seed2 none])
      "home" seed3 none).2 = .ok ∧
    GetDefault (run fresh [.add work none, .add home none, .delete "work" seed2 none,
      .delete "home" seed3 none]) = "" ∧
    ListProfiles (run fresh [.add work none, .add home none, .delete "work" seed2 none,
      .delete "home" seed3 none]) seed4 = [] ∧
    GetProfile (run fresh [.add work none, .add home none, .delete "work" seed2 none,
      .delete "home" seed3 none]) "" =
      .error (.errorf "no profile specified and no default profile set") := by
  have hk2 : workHome.config.Profiles.keys = ["home", "work"] := by decide
  have hkeys : (workHome.config.Profiles.delete "work").keys = ["home"] := by decide
  have h3 : (DeleteProfile workHome "work" seed2 none).1.config =
      { DefaultProfile := "home", Profiles := workHome.config.Profiles.delete "work" } := by
    rw [DeleteProfile_of_default workHome "work" seed2 none (by decide) (by decide), hkeys,
      rangeOrder_singleton]
    rfl
  have hk3 : "home" ∈ (DeleteProfile workHome "work" seed2 none).1.config.Profiles.keys := by
    rw [h3]; decide
  have h4 : (DeleteProfile (DeleteProfile workHome "work" seed2 none).1 "home" seed3
      none).1.config =
      { DefaultProfile := "",
        Profiles := (workHome.config.Profiles.delete "work").delete "home" } := by
    rw [DeleteProfile_of_default _ "home" seed3 none hk3 (by rw [h3]), h3]
    have hnil : ((workHome.config.Profiles.delete "work").delete "home").keys = [] := by decide
    simp only [hnil]
    rfl
  have hrun3 : run fresh [.add work none, .add home none, .delete "work" seed2 none] =
      (DeleteProfile workHome "work" seed2 none).1 := rfl
  have hrun4 : run fresh [.add work none, .add home none, .delete "work" seed2 none,
      .delete "home" seed3 none] =
      (DeleteProfile (DeleteProfile workHome "work" seed2 none).1 "home" seed3 none).1 := rfl
  rw [hrun4, hrun3]
  refine ⟨by decide, by decide, by decide, by decide, ?_, ?_, ?_, ?_, ?_, ?_, ?_⟩
  · have hperm := ListProfiles_perm workHome seed1
    rw [hk2] at hperm
    exact hperm.trans (List.Perm.swap "work" "home" [])
  · exact DeleteProfile_result_of_mem workHome "work" seed2 none (by decide)
  · rw [GetDefault, h3]
  · exact DeleteProfile_result_of_mem _ "home" seed3 none hk3
  · rw [GetDefault, h4]
  · have hperm := ListProfiles_perm
      (DeleteProfile (DeleteProfile workHome "work" seed2 none).1 "home" seed3 none).1 seed4
    rw [h4] at hperm
    exact hperm.eq_nil
  · simp only [GetProfile, h4]
    rfl

/-- Counterexample to C12 as stated: a Config whose one profile has the name
'a', 0xFF, 'b', which is not valid UTF-8. Save writes U+FFFD for the byte
0xFF, so the Config that Load reads back from the file has another default,
has no profile under the saved name, and has under the new name a profile
whose name field is not the saved one. -/
theorem save_load_counterexample :
    ∃ m', Load asciiFold fresh (written badConfig) = .ok m' ∧
      badConfig.Profiles.lookup badName = some { work with Name := badName } ∧
      m'.config.Profiles.lookup badName = none ∧
      m'.config.Profiles.lookup (toValidUTF8 badName) =
        some { work with Name := toValidUTF8 badName } ∧
      toValidUTF8 badName ≠ badName ∧
      m'.config.DefaultProfile ≠ badConfig.DefaultProfile :=
  ⟨{ config :=
      { DefaultProfile := toValidUTF8 badName,
        Profiles := some (AList.insert (toValidUTF8 badName)
          { work with Name := toValidUTF8 badName } ∅) },
     writes := [] },
   rfl, by decide, by decide, by decide, by decide, by decide⟩

/-- C12, amended. Round trip for a Config all of whose strings are valid
UTF-8: Save hands the Config to the write, and loading the file written for it
into the fresh manager returns nil and leaves a Config with the same default
and the same names, in which every name finds the profile it found in the
saved Config, equal in all seven fields, an empty endpoint or account id that
the file leaves out among them. The nil map comes back nil. -/
theorem save_load_round_trip (fold : String → String) (m : Manager)
    (hv : m.config.ValidUTF8) :
    (Save m none).2 = .ok ∧
    (Save m none).1.writes = m.config :: m.writes ∧
    ∃ m', Load fold fresh (written m.config) = .ok m' ∧
      m'.config.DefaultProfile = m.config.DefaultProfile ∧
      (∀ k, k ∈ m'.config.Profiles.keys ↔ k ∈ m.config.Profiles.keys) ∧
      (∀ k, m'.config.Profiles.lookup k = m.config.Profiles.lookup k) ∧
      (m'.config.Profiles = none ↔ m.config.Profiles = none) := by
  refine ⟨rfl, rfl, ?_⟩
  obtain ⟨m', hload, _, hdef, hnil, hsome⟩ := Load_written fold fresh m.config hv
  have hlookup : ∀ k, m'.config.Profiles.lookup k = m.config.Profiles.lookup k := by
    intro k
    by_cases hc : m.config.Profiles = none
    · rw [hnil hc, hc]
    · rw [(hsome hc).2 k]
      cases m.config.Profiles.lookup k with
      | some p => rfl
      | none => rfl
  refine ⟨m', hload, hdef, ?_, hlookup, ?_⟩
  · intro k
    rw [ProfileMap.mem_keys_iff_lookup, ProfileMap.mem_keys_iff_lookup, hlookup]
  · constructor
    · intro h
      by_contra hc
      exact (hsome hc).1 h
    · exact hnil

/-- Witness of C12, amended: the manager holding "work" and "home", whose
strings are valid UTF-8. -/
theorem save_load_round_trip_witness :
    (Save workHome none).2 = .ok ∧
    (Save workHome none).1.writes = workHome.config :: workHome.writes ∧
    ∃ m', Load asciiFold fresh (written workHome.config) = .ok m' ∧
      m'.config.DefaultProfile = workHome.config.DefaultProfile ∧
      (∀ k, k ∈ m'.config.Profiles.keys ↔ k ∈ workHome.config.Profiles.keys) ∧
      (∀ k, m'.config.Profiles.lookup k = workHome.config.Profiles.lookup k) ∧
      (m'.config.Profiles = none ↔ workHome.config.Profiles = none) :=
  save_load_round_trip asciiFold workHome (by decide)

/-- Counterexample to C13 as stated: the manager holds "work" in memory, the
file is the one written for a Config that holds only "home". Load returns nil,
and "work", which the file does not have, is still in memory: the Config in
memory is not the Config of the file. -/
theorem load_replaces_counterexample :
    ∃ m', Load asciiFold workOnly (written homeOnlyConfig) = .ok m' ∧
      homeOnlyConfig.Profiles.lookup "work" = none ∧
      m'.config.Profiles.lookup "work" = some work ∧
      m'.config.Profiles.lookup "home" = some home ∧
      m'.config ≠ homeOnlyConfig := by
  obtain ⟨m', hload, _, _, _, hsome⟩ :=
    Load_written asciiFold workOnly homeOnlyConfig (by decide)
  have hl := (hsome (by decide)).2
  have hwork : m'.config.Profiles.lookup "work" = some work := by
    rw [hl "work"]; decide
  have hhome : m'.config.Profiles.lookup "home" = some home := by
    rw [hl "home"]; decide
  refine ⟨m', hload, by decide, hwork, hhome, ?_⟩
  intro h
  rw [h] at hwork
  exact absurd hwork (by decide)

/-- C13, amended. Load lays the file over the Config in memory instead of
replacing it. For every Config in memory and every well-formed file content on
which Load returns nil, let c be the Config the content encodes, which is what
decoding it into the zero Config gives. After the Load: the default is that of
c if the file has a "default_profile" member holding a string, and the default
that was in memory if not; every name of c finds the profile c has for it; a
name c does not have finds the entry that was in memory before the Load,
unless the file has a "profiles" member holding null, in which case it finds
nothing. The Config in memory equals c, in its default and in what every name
finds, when before the Load there was no default and no entry in memory, as
in NewManager. -/
theorem load_overlays_file (fold : String → String) (m m' : Manager) (j : Json)
    (h : Load fold m (.json j) = .ok m') :
    ∃ c, Unmarshal fold j zeroConfig = .done c ∧
      m'.config.DefaultProfile =
        (if j.givesDefault fold then c.DefaultProfile else m.config.DefaultProfile) ∧
      (∀ k, m'.config.Profiles.lookup k =
        match c.Profiles.lookup k with
        | some p => some p
        | none => if j.nullsProfiles fold then none else m.config.Profiles.lookup k) ∧
      (m.config.DefaultProfile = "" → m.config.Profiles.keys = [] →
        m'.config.DefaultProfile = c.DefaultProfile ∧
        ∀ k, m'.config.Profiles.lookup k = c.Profiles.lookup k) := by
  have hinit : Overlay m.config m.config zeroConfig false false :=
    { default := by simp
      noDefault := fun _ => rfl
      lookup := by intro k; simp [zeroConfig, ProfileMap.lookup] }
  have hmain : ∃ c, Unmarshal fold j zeroConfig = .done c ∧
      Overlay m.config m'.config c (j.givesDefault fold) (j.nullsProfiles fold) := by
    unfold Load at h
    simp only at h
    cases hU : Unmarshal fold j m.config with
    | done now =>
      rw [hU] at h
      simp only [Outcome.ok.injEq] at h
      subst h
      cases j with
      | object members =>
        simp only [Unmarshal] at hU ⊢
        obtain ⟨c, hc, hrel⟩ :=
          decodeConfig_overlay fold m.config members m.config zeroConfig now false false
            hinit hU
        exact ⟨c, hc, by simpa [Json.givesDefault, Json.nullsProfiles] using hrel⟩
      | null =>
        simp only [Unmarshal, Decoded.done.injEq] at hU
        subst hU
        exact ⟨zeroConfig, rfl, hinit⟩
      | bool b => simp [Unmarshal] at hU
      | number n => simp [Unmarshal] at hU
      | string x => simp [Unmarshal] at hU
      | array items => simp [Unmarshal] at hU
    | typeError => rw [hU] at h; cases h
    | nilProfile => rw [hU] at h; cases h
  obtain ⟨c, hc, hrel⟩ := hmain
  refine ⟨c, hc, hrel.default, hrel.lookup, ?_⟩
  intro hd hkeys
  refine ⟨?_, ?_⟩
  · rw [hrel.default]
    cases hg : j.givesDefault fold with
    | true => rfl
    | false => simp only [Bool.false_eq_true, if_false]; rw [hd, hrel.noDefault hg]
  · intro k
    rw [hrel.lookup k]
    cases c.Profiles.lookup k with
    | some p => rfl
    | none =>
      have hnone : m.config.Profiles.lookup k = none := by
        apply (ProfileMap.lookup_eq_none_iff _ _).mpr
        rw [hkeys]
        exact List.not_mem_nil _
      simp [hnone]

/-- Witness of C13, amended: the manager holds "work", its default, and loads
a file that holds "home" and no "default_profile" member. The default stays
"work", and "work" is still found beside "home". -/
theorem load_overlays_file_witness :
    ∃ c, Unmarshal asciiFold homeJson zeroConfig = .done c ∧
      workThenHome.config.DefaultProfile =
        (if homeJson.givesDefault asciiFold then c.DefaultProfile
          else workOnly.config.DefaultProfile) ∧
      (∀ k, workThenHome.config.Profiles.lookup k =
        match c.Profiles.lookup k with
        | some p => some p
        | none =>
          if homeJson.nullsProfiles asciiFold then none
          else workOnly.config.Profiles.lookup k) ∧
      (workOnly.config.DefaultProfile = "" → workOnly.config.Profiles.keys = [] →
        workThenHome.config.DefaultProfile = c.DefaultProfile ∧
        ∀ k, workThenHome.config.Profiles.lookup k = c.Profiles.lookup k) :=
  load_overlays_file asciiFold workOnly workThenHome homeJson rfl

/-- C20, the code at the failing input. NewManager accepts a configuration
file whose "profiles" member is null and returns a manager whose map is nil;
AddProfile("work") on that manager panics. With the member missing, or with no
file, the map stays the one NewManager allocated and AddProfile returns nil.
This holds whatever the folding of names is: the keys of these files are the
exact names of the fields. -/
theorem add_after_null_profiles_panics (fold : String → String) :
    (∃ m, NewManager fold { configDir := none, file := nullProfilesFile } = .ok m ∧
      m.config.Profiles = none ∧
      (AddProfile m work none).2 = .panic) ∧
    (∃ m, NewManager fold { configDir := none, file := noProfilesFile } = .ok m ∧
      (AddProfile m work none).2 = .ok) ∧
    (∃ m, NewManager fold { configDir := none, file := .absent } = .ok m ∧
      (AddProfile m work none).2 = .ok) :=
  ⟨⟨{ config := { DefaultProfile := "", Profiles := none }, writes := [] }, rfl, rfl, rfl⟩,
   ⟨fresh, rfl, rfl⟩, ⟨fresh, rfl, rfl⟩⟩

end S3Hero
